/-
Verification of the codeclaw orchestrator against its specification.

The Python sources are embedded shallowly: pure functions become Lean
functions on `List Char` / `String` / explicit records, stateful modules
(the group queue) become explicit state records with a step relation,
fallible code returns `Option` / `Except`, and external effects
(filesystem writes, HTTP responses) become explicit effect lists or
oracle parameters.
-/
import Mathlib

namespace Codeclaw

/-! ## Generic string helpers

Python string operations used by the sources: substring search
(`str.find`, `in`), whitespace stripping (`str.strip`), ASCII case
folding (`str.lower`, SQL `LIKE`). All operate on `List Char`.
-/

/-- Python `str.strip` whitespace class, restricted to ASCII. -/
def isPyWhite (c : Char) : Bool :=
  c = ' ' || c = '\t' || c = '\n' || c = '\x0d' || c = '\x0b' || c = '\x0c'

/-- Python `str.strip`: drop leading and trailing whitespace. -/
def pyStrip (s : List Char) : List Char :=
  ((s.dropWhile isPyWhite).reverse.dropWhile isPyWhite).reverse

/-- `pat` occurs in `s` at position `i` (Python slice test `s[i:i+len(pat)] == pat`). -/
def matchesAt (pat s : List Char) (i : Nat) : Bool :=
  (s.drop i).take pat.length == pat

/-- Index of the first occurrence of `pat` in `s`, Python `str.find` (as `Option`). -/
def findSub (pat : List Char) : List Char → Option Nat
  | [] => if pat.isEmpty then some 0 else none
  | c :: rest =>
    if matchesAt pat (c :: rest) 0 then some 0
    else (findSub pat rest).map (· + 1)

/-- Python `pat in s`. -/
def hasSub (pat s : List Char) : Bool :=
  (findSub pat s).isSome

/-- ASCII lower-casing of one character (Python `str.lower` on ASCII input). -/
def toLowerAscii (c : Char) : Char :=
  if 'A' ≤ c ∧ c ≤ 'Z' then Char.ofNat (c.toNat + 32) else c

def lowerAscii (s : List Char) : List Char :=
  s.map toLowerAscii

def isAsciiDigit (c : Char) : Bool := '0' ≤ c && c ≤ '9'

def isAsciiAlpha (c : Char) : Bool := ('a' ≤ c && c ≤ 'z') || ('A' ≤ c && c ≤ 'Z')

def isAsciiAlnum (c : Char) : Bool := isAsciiAlpha c || isAsciiDigit c

/-! ### Basic lemmas about the helpers -/

theorem findSub_le_length {pat s : List Char} {i : Nat}
    (h : findSub pat s = some i) : i + pat.length ≤ s.length := by
  induction s generalizing i with
  | nil =>
    simp only [findSub] at h
    split at h
    · cases h
      simp_all [List.isEmpty_iff]
    · cases h
  | cons c rest ih =>
    simp only [findSub] at h
    split at h
    · cases h
      rename_i hm
      simp only [matchesAt, List.drop_zero, beq_iff_eq] at hm
      have := congrArg List.length hm
      simp only [List.length_take] at this
      omega
    · cases hfind : findSub pat rest with
      | none => simp [hfind] at h
      | some j =>
        simp only [hfind, Option.map_some'] at h
        cases h
        have := ih hfind
        simp only [List.length_cons]
        omega

theorem findSub_matches {pat s : List Char} {i : Nat}
    (h : findSub pat s = some i) : matchesAt pat s i = true := by
  induction s generalizing i with
  | nil =>
    simp only [findSub] at h
    split at h
    · cases h
      simp_all [matchesAt, List.isEmpty_iff]
    · cases h
  | cons c rest ih =>
    simp only [findSub] at h
    split at h
    · cases h; assumption
    · cases hfind : findSub pat rest with
      | none => simp [hfind] at h
      | some j =>
        simp only [hfind, Option.map_some'] at h
        cases h
        have := ih hfind
        simpa [matchesAt] using this

theorem findSub_min {pat s : List Char} {i : Nat}
    (h : findSub pat s = some i) :
    ∀ j, j < i → matchesAt pat s j = false := by
  induction s generalizing i with
  | nil =>
    intro j hj
    simp only [findSub] at h
    split at h
    · cases h; omega
    · cases h
  | cons c rest ih =>
    intro j hj
    simp only [findSub] at h
    split at h
    · cases h; omega
    · rename_i hm0
      cases hfind : findSub pat rest with
      | none => simp [hfind] at h
      | some k =>
        simp only [hfind, Option.map_some'] at h
        cases h
        cases j with
        | zero => simpa using hm0
        | succ j' =>
          have := ih hfind j' (by omega)
          simpa [matchesAt] using this

theorem findSub_none {pat s : List Char}
    (h : findSub pat s = none) :
    ∀ j, matchesAt pat s j = false := by
  induction s with
  | nil =>
    intro j
    simp only [findSub] at h
    split at h
    · cases h
    · rename_i hne
      simp only [List.isEmpty_iff] at hne
      simp only [matchesAt, List.drop_nil, List.take_nil]
      cases pat with
      | nil => simp at hne
      | cons p ps => simp
  | cons c rest ih =>
    intro j
    simp only [findSub] at h
    split at h
    · cases h
    · rename_i hm0
      cases hfind : findSub pat rest with
      | none =>
        cases j with
        | zero => simpa using hm0
        | succ j' => simpa [matchesAt] using ih hfind j'
      | some k => simp [hfind] at h

/-- If `matchesAt` holds at 0 and the pattern is nonempty, `findSub` returns 0. -/
theorem findSub_zero {pat s : List Char} (hm : matchesAt pat s 0 = true)
    (hpat : pat ≠ []) : findSub pat s = some 0 := by
  cases s with
  | nil =>
    exfalso
    simp only [matchesAt, List.drop_nil, List.take_nil, beq_iff_eq] at hm
    exact hpat hm.symm
  | cons c rest => simp [findSub, hm]

theorem matchesAt_cons_succ (pat : List Char) (c : Char) (rest : List Char) (j : Nat) :
    matchesAt pat (c :: rest) (j + 1) = matchesAt pat rest j := rfl

/-- `findSub` returns exactly the first matching position. -/
theorem findSub_eq_some {pat s : List Char} {i : Nat} (hm : matchesAt pat s i = true)
    (hmin : ∀ j, j < i → matchesAt pat s j = false) (hpat : pat ≠ []) :
    findSub pat s = some i := by
  induction s generalizing i with
  | nil =>
    exfalso
    simp only [matchesAt, List.drop_nil, List.take_nil, beq_iff_eq] at hm
    exact hpat hm.symm
  | cons c rest ih =>
    cases i with
    | zero => exact findSub_zero hm hpat
    | succ i' =>
      have h0 : matchesAt pat (c :: rest) 0 = false := hmin 0 (Nat.succ_pos _)
      have hrec : findSub pat rest = some i' := by
        apply ih
        · simpa [matchesAt_cons_succ] using hm
        · intro j hj
          have := hmin (j + 1) (by omega)
          simpa [matchesAt_cons_succ] using this
      simp [findSub, h0, hrec]

/-! ## Router (src/codeclaw/router.py)

`strip_internal_tags` is `re.sub(r"<internal>[\s\S]*?</internal>", "", text).strip()`.
The lazy regex removes, repeatedly, the span from the leftmost `<internal>` to the
first `</internal>` that follows it; scanning resumes after the removed span.
`removeInternalSpans` is that substitution, `pyStrip` the final `.strip()`.
-/

def OPEN_TAG : List Char := "<internal>".data

def CLOSE_TAG : List Char := "</internal>".data

theorem OPEN_TAG_length : OPEN_TAG.length = 10 := rfl

theorem CLOSE_TAG_length : CLOSE_TAG.length = 11 := rfl

def removeInternalSpans (s : List Char) : List Char :=
  match h1 : findSub OPEN_TAG s with
  | none => s
  | some i =>
    match findSub CLOSE_TAG (s.drop (i + OPEN_TAG.length)) with
    | none => s
    | some k =>
      s.take i ++ removeInternalSpans ((s.drop (i + OPEN_TAG.length)).drop (k + CLOSE_TAG.length))
termination_by s.length
decreasing_by
  have hi := findSub_le_length h1
  rw [OPEN_TAG_length] at hi
  simp only [List.length_drop, OPEN_TAG_length, CLOSE_TAG_length]
  omega

def strip_internal_tags (text : String) : String :=
  ⟨pyStrip (removeInternalSpans text.data)⟩

def format_outbound (raw_text : String) : String :=
  let text := strip_internal_tags raw_text
  if text.isEmpty then "" else text

theorem removeInternalSpans_of_no_open {s : List Char}
    (h : findSub OPEN_TAG s = none) : removeInternalSpans s = s := by
  unfold removeInternalSpans
  split
  · rfl
  · rename_i i heq
    rw [h] at heq
    cases heq

/-- `CLOSE_TAG` has no nonempty proper border: no occurrence of it can straddle
the boundary between a list with no occurrence and a literal `CLOSE_TAG`. -/
theorem close_tag_no_border :
    ∀ m, m < 11 → 1 ≤ m → CLOSE_TAG.drop m ≠ CLOSE_TAG.take (11 - m) := by decide

/-- In `x ++ CLOSE_TAG ++ y` with no occurrence of `CLOSE_TAG` inside `x`,
the first occurrence of `CLOSE_TAG` is exactly at position `x.length`. -/
theorem findSub_close_boundary (x y : List Char)
    (hx : findSub CLOSE_TAG x = none) :
    findSub CLOSE_TAG (x ++ CLOSE_TAG ++ y) = some x.length := by
  apply findSub_eq_some
  · have : (x ++ CLOSE_TAG ++ y).drop x.length = CLOSE_TAG ++ y := by
      rw [List.append_assoc]
      exact List.drop_left x (CLOSE_TAG ++ y)
    simp only [matchesAt, this, beq_iff_eq]
    exact List.take_left CLOSE_TAG y
  · intro j hj
    by_contra hcon
    rw [Bool.not_eq_false] at hcon
    simp only [matchesAt, beq_iff_eq] at hcon
    by_cases hfit : j + 11 ≤ x.length
    · -- the occurrence would lie entirely inside x
      have hdrop : (x ++ CLOSE_TAG ++ y).drop j = x.drop j ++ (CLOSE_TAG ++ y) := by
        rw [List.append_assoc, List.drop_append_of_le_length (by omega)]
      rw [hdrop, CLOSE_TAG_length,
          List.take_append_of_le_length (by simp [List.length_drop]; omega)] at hcon
      have : matchesAt CLOSE_TAG x j = true := by
        simp [matchesAt, CLOSE_TAG_length, hcon]
      rw [findSub_none hx j] at this
      cases this
    · -- the occurrence would straddle the boundary: impossible, CLOSE_TAG has no border
      have hm : x.length - j < 11 := by omega
      have hm1 : 1 ≤ x.length - j := by omega
      have hdrop : (x ++ CLOSE_TAG ++ y).drop j = x.drop j ++ (CLOSE_TAG ++ y) := by
        rw [List.append_assoc, List.drop_append_of_le_length (by omega)]
      have hlen : (x.drop j).length = x.length - j := by simp [List.length_drop]
      rw [hdrop, CLOSE_TAG_length] at hcon
      have htake : (x.drop j ++ (CLOSE_TAG ++ y)).take 11
          = x.drop j ++ (CLOSE_TAG ++ y).take (11 - (x.length - j)) := by
        rw [List.take_append_eq_append_take]
        congr 1
        · rw [List.take_of_length_le (by omega)]
        · rw [hlen]
      rw [htake] at hcon
      have htake2 : (CLOSE_TAG ++ y).take (11 - (x.length - j))
          = CLOSE_TAG.take (11 - (x.length - j)) := by
        apply List.take_append_of_le_length
        rw [CLOSE_TAG_length]; omega
      rw [htake2] at hcon
      -- hcon : x.drop j ++ CLOSE_TAG.take (11 - m) = CLOSE_TAG  where m = x.length - j
      have hdropm : CLOSE_TAG.drop (x.length - j) = CLOSE_TAG.take (11 - (x.length - j)) := by
        have := congrArg (List.drop (x.length - j)) hcon
        rw [List.drop_append_of_le_length (by omega), List.drop_of_length_le (by omega),
            List.nil_append] at this
        exact this.symm
      exact close_tag_no_border (x.length - j) hm hm1 hdropm
  · intro h
    cases h

/-- Removing internal spans from `"<internal>" ++ x ++ "</internal>" ++ y`
leaves exactly `y`, provided `x` contains no closing tag and `y` no opening tag. -/
theorem removeInternalSpans_wrapped (x y : List Char)
    (hx : findSub CLOSE_TAG x = none) (hy : findSub OPEN_TAG y = none) :
    removeInternalSpans (OPEN_TAG ++ (x ++ (CLOSE_TAG ++ y))) = y := by
  have hopen : findSub OPEN_TAG (OPEN_TAG ++ (x ++ (CLOSE_TAG ++ y))) = some 0 := by
    apply findSub_zero
    · simp only [matchesAt, List.drop_zero, beq_iff_eq]
      exact List.take_left OPEN_TAG _
    · intro h; cases h
  have hdrop0 : (OPEN_TAG ++ (x ++ (CLOSE_TAG ++ y))).drop (0 + OPEN_TAG.length)
      = x ++ CLOSE_TAG ++ y := by
    rw [Nat.zero_add]
    rw [show (OPEN_TAG ++ (x ++ (CLOSE_TAG ++ y))) = OPEN_TAG ++ (x ++ CLOSE_TAG ++ y) by
      simp [List.append_assoc]]
    exact List.drop_left OPEN_TAG _
  have hclose : findSub CLOSE_TAG ((OPEN_TAG ++ (x ++ (CLOSE_TAG ++ y))).drop (0 + OPEN_TAG.length))
      = some x.length := by
    rw [hdrop0]
    exact findSub_close_boundary x y hx
  have hclose' : findSub CLOSE_TAG (x ++ CLOSE_TAG ++ y) = some x.length :=
    findSub_close_boundary x y hx
  unfold removeInternalSpans
  rw [hopen]
  simp only [hdrop0]
  simp only [hclose']
  have hrest : (x ++ CLOSE_TAG ++ y).drop (x.length + CLOSE_TAG.length) = y := by
    rw [← List.drop_drop, List.append_assoc, List.drop_left x (CLOSE_TAG ++ y),
        List.drop_left CLOSE_TAG y]
  rw [hrest, List.take_zero, List.nil_append]
  exact removeInternalSpans_of_no_open hy

theorem hasSub_false_iff {pat s : List Char} :
    hasSub pat s = false ↔ findSub pat s = none := by
  unfold hasSub
  cases findSub pat s <;> simp

/-- C8: `format_outbound` removes paired `<internal>…</internal>` spans and trims:
for every `x` and `y` containing no `<internal>` or `</internal>` tags,
`format_outbound ("<internal>" ++ x ++ "</internal>" ++ y)` is `y` stripped of
surrounding whitespace, and any input that is empty after stripping yields `""`. -/
theorem c8_internal_tag_roundtrip (x y : String)
    (hxo : hasSub OPEN_TAG x.data = false) (hxc : hasSub CLOSE_TAG x.data = false)
    (hyo : hasSub OPEN_TAG y.data = false) (hyc : hasSub CLOSE_TAG y.data = false) :
    format_outbound ("<internal>" ++ x ++ "</internal>" ++ y) = String.mk (pyStrip y.data) ∧
    (∀ r : String, pyStrip (removeInternalSpans r.data) = [] → format_outbound r = "") := by
  constructor
  · have hdata : ("<internal>" ++ x ++ "</internal>" ++ y).data
        = OPEN_TAG ++ (x.data ++ (CLOSE_TAG ++ y.data)) := by
      simp [String.data_append, OPEN_TAG, CLOSE_TAG, List.append_assoc]
    have hrem : removeInternalSpans (("<internal>" ++ x ++ "</internal>" ++ y).data) = y.data := by
      rw [hdata]
      exact removeInternalSpans_wrapped x.data y.data
        (hasSub_false_iff.mp hxc) (hasSub_false_iff.mp hyo)
    unfold format_outbound strip_internal_tags
    rw [hrem]
    by_cases hemp : (String.mk (pyStrip y.data)).isEmpty = true
    · rw [if_pos hemp]
      exact ((String.isEmpty_iff _).mp hemp).symm
    · rw [if_neg hemp]
  · intro r hr
    unfold format_outbound strip_internal_tags
    rw [hr]
    rfl

theorem c8_internal_tag_roundtrip_witness :
    hasSub OPEN_TAG ("draft plan".data) = false ∧
    hasSub CLOSE_TAG ("draft plan".data) = false ∧
    hasSub OPEN_TAG (" ok \n".data) = false ∧
    hasSub CLOSE_TAG (" ok \n".data) = false ∧
    (format_outbound ("<internal>" ++ "draft plan" ++ "</internal>" ++ " ok \n")
        = String.mk (pyStrip (" ok \n".data)) ∧
      (∀ r : String, pyStrip (removeInternalSpans r.data) = [] → format_outbound r = "")) :=
  ⟨by decide, by decide, by decide, by decide,
    c8_internal_tag_roundtrip "draft plan" " ok \n" (by decide) (by decide) (by decide) (by decide)⟩

/-! ## Group folder validation (src/clawcode/group_folder.py)

The regex is `^[A-Za-z0-9][A-Za-z0-9_.\-]{0,127}$`; since the code first
requires `folder == folder.strip()`, the `$` anchor's allowance for one
trailing newline can never fire, so the regex is modelled as a full match.
-/

def isFolderTailChar (c : Char) : Bool :=
  isAsciiAlnum c || c = '_' || c = '.' || c = '-'

def folderRegexMatch : List Char → Bool
  | [] => false
  | c :: rest => isAsciiAlnum c && rest.length ≤ 127 && rest.all isFolderTailChar

/-- The early-return chain of `is_valid_group_folder`, written as the
conjunction it denotes: empty check, `folder == folder.strip()`, the regex,
path separators, `..`, and the case-insensitive reserved-name check. -/
def is_valid_group_folder (folder : String) : Bool :=
  !folder.isEmpty &&
  (folder.data == pyStrip folder.data) &&
  folderRegexMatch folder.data &&
  !(hasSub "/".data folder.data || hasSub "\\".data folder.data) &&
  !(hasSub "..".data folder.data) &&
  !(lowerAscii folder.data == "global".data)

def assert_valid_group_folder (folder : String) : Except String Unit :=
  if is_valid_group_folder folder then Except.ok ()
  else Except.error ("Invalid group folder \"" ++ folder ++ "\"")

/-- `resolve_group_folder_path`, modelled without symlinks: after validation the
joined path cannot escape the base directory, so resolution is plain joining. -/
def resolve_group_folder_path (groupsDir folder : String) : Except String String := do
  let _ ← assert_valid_group_folder folder
  Except.ok (groupsDir ++ "/" ++ folder)

structure RegisteredGroup where
  name : String
  folder : String
  trigger : String
  added_at : String
  requires_trigger : Option Bool := none
deriving DecidableEq, Repr

/-- A `registered_groups` row as written by `set_registered_group`. -/
structure GroupRow where
  jid : String
  name : String
  folder : String
  trigger_pattern : String
  added_at : String
deriving DecidableEq, Repr

/-- src/codeclaw/db.py `set_registered_group`: raises `ValueError` on an invalid
folder before touching the database. -/
def set_registered_group (jid : String) (group : RegisteredGroup) : Except String GroupRow :=
  if !is_valid_group_folder group.folder then
    Except.error ("Invalid group folder \"" ++ group.folder ++ "\" for JID " ++ jid)
  else
    Except.ok ⟨jid, group.name, group.folder, group.trigger, group.added_at⟩

/-- The `register_group` branch of `process_task_ipc` (src/codeclaw/ipc.py):
non-main senders are refused, then missing/empty fields, then the folder grammar.
Returns the registration that would be performed, or `none` when refused. -/
def register_group_ipc (is_main : Bool) (jid name folder trig : Option String)
    (now : String) : Option (String × RegisteredGroup) :=
  if !is_main then none
  else
    match jid, name, folder, trig with
    | some j, some n, some f, some t =>
      if j = "" || n = "" || f = "" || t = "" then none
      else if !is_valid_group_folder f then none
      else some (j, { name := n, folder := f, trigger := t, added_at := now })
    | _, _, _, _ => none

/-- The folder grammar exactly as the spec words it: non-empty, every character
alphanumeric or `_ . -`, length at most 128, no path separator, no `..`,
not a reserved name case-insensitively. -/
def specFolderGrammar (folder : String) : Bool :=
  !folder.isEmpty &&
  folder.data.all isFolderTailChar &&
  folder.data.length ≤ 128 &&
  !(hasSub "/".data folder.data) && !(hasSub "\\".data folder.data) &&
  !(hasSub "..".data folder.data) &&
  !(lowerAscii folder.data == "global".data)

theorem dropWhile_eq_self_of_no_white {w : Char → Bool} {l : List Char}
    (h : ∀ c ∈ l, w c = false) : l.dropWhile w = l := by
  cases l with
  | nil => rfl
  | cons c rest =>
    rw [List.dropWhile_cons_of_neg]
    simp [h c (List.mem_cons_self c rest)]

theorem pyStrip_eq_self_of_no_white {l : List Char}
    (h : ∀ c ∈ l, isPyWhite c = false) : pyStrip l = l := by
  unfold pyStrip
  rw [dropWhile_eq_self_of_no_white h]
  rw [dropWhile_eq_self_of_no_white (by intro c hc; exact h c (List.mem_reverse.mp hc))]
  exact List.reverse_reverse l

theorem isFolderTailChar_not_white {c : Char} (h : isFolderTailChar c = true) :
    isPyWhite c = false := by
  by_contra hw
  rw [Bool.not_eq_false] at hw
  simp only [isPyWhite, Bool.or_eq_true, decide_eq_true_eq] at hw
  rcases hw with ((((rfl | rfl) | rfl) | rfl) | rfl) | rfl <;> exact absurd h (by decide)

/-- C7 counterexample: `"_a"` satisfies the spec's folder grammar (every character
alphanumeric or `_ . -`, non-empty, short, unreserved, no separators, no `..`)
but `is_valid_group_folder` rejects it: the code additionally requires the first
character to be alphanumeric. -/
theorem c7_folder_grammar_counterexample :
    specFolderGrammar "_a" = true ∧ is_valid_group_folder "_a" = false := by decide

/-- C7 (amended): `is_valid_group_folder` accepts exactly the strings that are
non-empty with an alphanumeric FIRST character, remaining characters alphanumeric
or `_ . -`, length at most 128, containing no path separator and no `..`, and
not a reserved name case-insensitively; and each ingress point (the IPC
`register_group` branch, `set_registered_group`, path resolution) refuses an
invalid folder before any filesystem or database write. -/
theorem c7_folder_grammar_amended (folder : String) :
    (is_valid_group_folder folder = true ↔
      (∃ c rest, folder.data = c :: rest ∧ isAsciiAlnum c = true ∧
        (∀ d ∈ folder.data, isFolderTailChar d = true) ∧
        folder.data.length ≤ 128 ∧
        hasSub "/".data folder.data = false ∧ hasSub "\\".data folder.data = false ∧
        hasSub "..".data folder.data = false ∧
        lowerAscii folder.data ≠ "global".data)) ∧
    (is_valid_group_folder folder = false →
      (∀ is_main jid name trig now,
          register_group_ipc is_main jid name (some folder) trig now = none) ∧
      (∀ jid g, g.folder = folder →
          set_registered_group jid g
            = Except.error ("Invalid group folder \"" ++ folder ++ "\" for JID " ++ jid)) ∧
      (∀ groupsDir, resolve_group_folder_path groupsDir folder
          = Except.error ("Invalid group folder \"" ++ folder ++ "\""))) := by
  constructor
  · constructor
    · intro h
      simp only [is_valid_group_folder, Bool.and_eq_true, Bool.not_eq_true',
        Bool.or_eq_false_iff, beq_iff_eq] at h
      obtain ⟨⟨⟨⟨⟨hne, hstrip⟩, hregex⟩, hs1, hs2⟩, hdots⟩, hres⟩ := h
      obtain ⟨c, rest, hd⟩ : ∃ c rest, folder.data = c :: rest := by
        cases hcase : folder.data with
        | nil =>
          exfalso
          have hfe : folder = "" := String.ext (by rw [hcase])
          rw [hfe] at hne
          cases hne
        | cons c rest => exact ⟨c, rest, rfl⟩
      rw [hd] at hregex
      simp only [folderRegexMatch, Bool.and_eq_true, decide_eq_true_eq,
        List.all_eq_true] at hregex
      obtain ⟨⟨hc, hlen⟩, htail⟩ := hregex
      refine ⟨c, rest, hd, hc, ?_, ?_, hs1, hs2, hdots, ?_⟩
      · intro d hdmem
        rw [hd] at hdmem
        rcases List.mem_cons.mp hdmem with rfl | hmem
        · simp [isFolderTailChar, hc]
        · exact htail d hmem
      · rw [hd]
        simp only [List.length_cons]
        omega
      · intro hcon
        rw [hcon] at hres
        exact absurd hres (by decide)
    · rintro ⟨c, rest, hd, hc, hall, hlen, hs1, hs2, hdots, hres⟩
      have hnw : ∀ d ∈ folder.data, isPyWhite d = false := fun d hdm =>
        isFolderTailChar_not_white (hall d hdm)
      have hne : folder.isEmpty = false := by
        rw [← Bool.not_eq_true, String.isEmpty_iff]
        intro hcon
        rw [hcon] at hd
        cases hd
      have hstrip : pyStrip folder.data = folder.data := pyStrip_eq_self_of_no_white hnw
      have hregex : folderRegexMatch folder.data = true := by
        rw [hd]
        simp only [folderRegexMatch, Bool.and_eq_true, decide_eq_true_eq,
          List.all_eq_true]
        refine ⟨⟨hc, ?_⟩, ?_⟩
        · rw [hd] at hlen
          simp only [List.length_cons] at hlen
          omega
        · intro d hdm
          exact hall d (by rw [hd]; exact List.mem_cons_of_mem c hdm)
      simp only [is_valid_group_folder, Bool.and_eq_true, Bool.not_eq_true',
        Bool.or_eq_false_iff, beq_iff_eq]
      refine ⟨⟨⟨⟨⟨hne, hstrip.symm⟩, hregex⟩, hs1, hs2⟩, hdots⟩, ?_⟩
      simpa using hres
  · intro hbad
    refine ⟨?_, ?_, ?_⟩
    · intro is_main jid name trig now
      cases is_main <;> cases jid <;> cases name <;> cases trig <;>
        simp [register_group_ipc, hbad]
    · intro jid g hg
      unfold set_registered_group
      rw [hg, hbad]
      simp
    · intro groupsDir
      unfold resolve_group_folder_path assert_valid_group_folder
      rw [hbad]
      simp only [Bool.false_eq_true, if_false]
      rfl

theorem c7_folder_grammar_amended_witness :
    (is_valid_group_folder "octocat--hello-world" = true ↔
      (∃ c rest, "octocat--hello-world".data = c :: rest ∧ isAsciiAlnum c = true ∧
        (∀ d ∈ "octocat--hello-world".data, isFolderTailChar d = true) ∧
        "octocat--hello-world".data.length ≤ 128 ∧
        hasSub "/".data "octocat--hello-world".data = false ∧
        hasSub "\\".data "octocat--hello-world".data = false ∧
        hasSub "..".data "octocat--hello-world".data = false ∧
        lowerAscii "octocat--hello-world".data ≠ "global".data)) ∧
    (is_valid_group_folder "octocat--hello-world" = false →
      (∀ is_main jid name trig now,
          register_group_ipc is_main jid name (some "octocat--hello-world") trig now = none) ∧
      (∀ jid g, g.folder = "octocat--hello-world" →
          set_registered_group jid g
            = Except.error ("Invalid group folder \"" ++ "octocat--hello-world" ++ "\" for JID " ++ jid)) ∧
      (∀ groupsDir, resolve_group_folder_path groupsDir "octocat--hello-world"
          = Except.error ("Invalid group folder \"" ++ "octocat--hello-world" ++ "\""))) :=
  c7_folder_grammar_amended "octocat--hello-world"

/-! ## Access control (src/codeclaw/github/access_control.py)

`check_permission` consults the collaborator-permission endpoint. The HTTP
exchange is abstracted as an `ApiResult`: a transport failure (including a
JSON decode failure), or a response with a status code and the `permission`
field of its body. httpx's `raise_for_status` raises `HTTPStatusError` for
every non-2xx response (1xx, 3xx, 4xx, 5xx alike); the 404 branch of the code
runs before it.
-/

def PERMISSION_RANK (level : String) : Nat :=
  if level = "admin" then 5
  else if level = "maintain" then 4
  else if level = "write" then 3
  else if level = "triage" then 2
  else if level = "read" then 1
  else if level = "none" then 0
  else 0

structure AccessPolicy where
  min_permission : String := "triage"
  allow_external_contributors : Bool := false
  rate_limit_per_user : Nat := 10
  rate_limit_window_ms : Nat := 3600000
deriving DecidableEq, Repr

inductive ApiResult where
  | transportError
  | resp (status : Nat) (permission : Option String)
deriving DecidableEq, Repr

def check_permission (r : ApiResult) (policy : AccessPolicy) : Bool × Option String :=
  match r with
  | .transportError => (false, some "Permission check failed")
  | .resp status perm =>
    if status = 404 then
      if policy.allow_external_contributors then (true, none)
      else (false, some "Not a collaborator")
    else if ¬(200 ≤ status ∧ status < 300) then (false, some "Permission check failed")
    else
      let user_level := perm.getD "none"
      let user_rank := PERMISSION_RANK user_level
      let required_rank := PERMISSION_RANK policy.min_permission
      if required_rank ≤ user_rank then (true, none)
      else if policy.allow_external_contributors then (true, none)
      else (false, some ("Insufficient permissions: " ++ user_level
        ++ " < " ++ policy.min_permission))

/-- C6 counterexample: with `allow_external_contributors = true`, a collaborator
whose level `read` ranks BELOW the required `triage` is still allowed (response
status 200, not a 404), so "allowed iff rank sufficient, or 404 and
allow-external" is false on the code. -/
theorem c6_check_permission_counterexample :
    (check_permission (ApiResult.resp 200 (some "read"))
        { min_permission := "triage", allow_external_contributors := true }).1 = true ∧
    ¬ (PERMISSION_RANK "triage" ≤ PERMISSION_RANK "read") ∧
    (200 : Nat) ≠ 404 := by decide

/-- C6 (amended): `check_permission` allows iff the response is a 404 with
`allow_external_contributors` set, or a 2xx response whose permission rank
meets `min_permission` or with `allow_external_contributors` set; every other
status (1xx, 3xx and error statuses alike, since httpx's `raise_for_status`
raises for any non-2xx) and every transport error yields `allowed = false`
(closed-fail). -/
theorem c6_check_permission_amended (r : ApiResult) (policy : AccessPolicy) :
    (check_permission r policy).1 = true ↔
      (∃ status perm, r = ApiResult.resp status perm ∧
        ((status = 404 ∧ policy.allow_external_contributors = true) ∨
         (200 ≤ status ∧ status < 300 ∧
           (PERMISSION_RANK policy.min_permission ≤ PERMISSION_RANK (perm.getD "none") ∨
            policy.allow_external_contributors = true)))) := by
  cases r with
  | transportError =>
    simp only [check_permission]
    constructor
    · intro h
      cases h
    · rintro ⟨status, perm, hcon, -⟩
      cases hcon
  | resp status perm =>
    simp only [check_permission]
    by_cases h404 : status = 404
    · subst h404
      by_cases hext : policy.allow_external_contributors
      · simp [hext]
      · simp only [if_pos rfl, hext, Bool.false_eq_true, if_false]
        constructor
        · intro h
          cases h
        · rintro ⟨s, p, hsp, (⟨-, hcon⟩ | ⟨-, hlt, -⟩)⟩
          · cases hsp
            exact absurd hcon (by simpa using hext)
          · cases hsp
            omega
    · rw [if_neg h404]
      by_cases hok : 200 ≤ status ∧ status < 300
      · rw [if_neg (not_not_intro hok)]
        by_cases hrank : PERMISSION_RANK policy.min_permission
            ≤ PERMISSION_RANK (perm.getD "none")
        · rw [if_pos hrank]
          exact ⟨fun _ => ⟨status, perm, rfl, Or.inr ⟨hok.1, hok.2, Or.inl hrank⟩⟩,
            fun _ => rfl⟩
        · rw [if_neg hrank]
          by_cases hext : policy.allow_external_contributors = true
          · rw [if_pos hext]
            exact ⟨fun _ => ⟨status, perm, rfl, Or.inr ⟨hok.1, hok.2, Or.inr hext⟩⟩,
              fun _ => rfl⟩
          · simp only [hext, Bool.false_eq_true, if_false]
            constructor
            · intro h
              cases h
            · rintro ⟨s, p, hsp, (⟨hcon, -⟩ | ⟨-, -, (hcon | hcon)⟩)⟩ <;> cases hsp
              · exact absurd hcon h404
              · exact absurd hcon hrank
              · exact absurd hcon (by simpa using hext)
      · rw [if_pos hok]
        constructor
        · intro h
          cases h
        · rintro ⟨s, p, hsp, (⟨hcon, -⟩ | ⟨h1, h2, -⟩)⟩ <;> cases hsp
          · exact absurd hcon h404
          · exact absurd ⟨h1, h2⟩ hok

/-! ## Message store (src/codeclaw/db.py)

`get_messages_since` is the SQL query
`WHERE chat_jid = ? AND timestamp > ? AND is_bot_message = 0 AND content NOT LIKE ?
AND content != '' AND content IS NOT NULL ORDER BY timestamp` with the pattern
`f"{bot_prefix}:%"`. SQLite compares TEXT bytewise (on ASCII identical to the
`String` order used here), and its `LIKE` is case-insensitive for ASCII letters;
a NULL `content` fails the `NOT LIKE` and `!=` predicates as well. The table is
modelled as a list of rows and `ORDER BY` as an insertion sort on `timestamp`.
-/

structure MessageRow where
  id : String
  chat_jid : String
  sender : String
  sender_name : String
  content : Option String
  timestamp : String
  is_from_me : Bool := false
  is_bot_message : Bool := false
deriving DecidableEq, Repr

/-- SQLite TEXT comparison: bytewise memcmp. UTF-8 preserves code-point order,
so comparing code points position by position is the same relation. -/
def textLt : List Char → List Char → Bool
  | [], [] => false
  | [], _ :: _ => true
  | _ :: _, [] => false
  | a :: as, b :: bs =>
    if a.toNat < b.toNat then true
    else if b.toNat < a.toNat then false
    else textLt as bs

def textLe (a b : List Char) : Bool := textLt a b || a == b

theorem textLt_head_le {a b : Char} {as bs : List Char}
    (h : textLt (a :: as) (b :: bs) = true) : a.toNat ≤ b.toNat := by
  simp only [textLt] at h
  split_ifs at h with h1 h2
  · omega
  · omega

theorem textLt_trans : ∀ {a b c : List Char},
    textLt a b = true → textLt b c = true → textLt a c = true
  | [], b, c, h1, h2 => by
    cases b with
    | nil => cases h1
    | cons bb bs =>
      cases c with
      | nil => cases h2
      | cons cc cs => rfl
  | _ :: _, [], _, h1, _ => by cases h1
  | _ :: _, _ :: _, [], _, h2 => by cases h2
  | a :: as, b :: bs, c :: cs, h1, h2 => by
    have hab := textLt_head_le h1
    have hbc := textLt_head_le h2
    simp only [textLt] at h1 h2 ⊢
    by_cases hac : a.toNat < c.toNat
    · rw [if_pos hac]
    · rw [if_neg hac, if_neg (by omega)]
      have hab' : ¬ a.toNat < b.toNat := by omega
      have hbc' : ¬ b.toNat < c.toNat := by omega
      rw [if_neg hab', if_neg (by omega)] at h1
      rw [if_neg hbc', if_neg (by omega)] at h2
      exact textLt_trans h1 h2

theorem textLt_total : ∀ a b : List Char,
    textLt a b = true ∨ textLt b a = true ∨ a = b
  | [], [] => Or.inr (Or.inr rfl)
  | [], _ :: _ => Or.inl rfl
  | _ :: _, [] => Or.inr (Or.inl rfl)
  | a :: as, b :: bs => by
    by_cases hab : a.toNat < b.toNat
    · exact Or.inl (by simp [textLt, hab])
    · by_cases hba : b.toNat < a.toNat
      · exact Or.inr (Or.inl (by simp [textLt, hba, hab]))
      · have hd : textLt (a :: as) (b :: bs) = textLt as bs := by
          simp [textLt, hab, hba]
        have hd' : textLt (b :: bs) (a :: as) = textLt bs as := by
          simp [textLt, hab, hba]
        have heq : a = b := by
          have hn : a.toNat = b.toNat := by omega
          exact Char.eq_of_val_eq (UInt32.toNat.inj hn)
        rcases textLt_total as bs with h | h | h
        · exact Or.inl (by rw [hd]; exact h)
        · exact Or.inr (Or.inl (by rw [hd']; exact h))
        · exact Or.inr (Or.inr (by rw [heq, h]))

theorem textLe_total (a b : List Char) : textLe a b = true ∨ textLe b a = true := by
  unfold textLe
  rcases textLt_total a b with h | h | h
  · exact Or.inl (by simp [h])
  · exact Or.inr (by simp [h])
  · exact Or.inl (by simp [h])

theorem textLe_trans {a b c : List Char}
    (h1 : textLe a b = true) (h2 : textLe b c = true) : textLe a c = true := by
  unfold textLe at h1 h2 ⊢
  rcases Bool.or_eq_true_iff.mp h1 with h1' | h1' <;>
    rcases Bool.or_eq_true_iff.mp h2 with h2' | h2'
  · simp [textLt_trans h1' h2']
  · rw [beq_iff_eq] at h2'
    simp [h2' ▸ h1']
  · rw [beq_iff_eq] at h1'
    simp [h1' ▸ h2']
  · rw [beq_iff_eq] at h1' h2'
    simp [h1', h2']

/-- `%` absorbs zero or more characters: try the continuation on every suffix. -/
def likeStar (f : List Char → Bool) : List Char → Bool
  | [] => f []
  | c :: s' => f (c :: s') || likeStar f s'

/-- SQLite `LIKE` (no ESCAPE clause): `%` matches any sequence, `_` any single
character, other characters compare ASCII-case-insensitively. -/
def likeMatch : List Char → List Char → Bool
  | [], s => s.isEmpty
  | '%' :: ps, s => likeStar (likeMatch ps) s
  | '_' :: _, [] => false
  | '_' :: ps, _ :: s' => likeMatch ps s'
  | _ :: _, [] => false
  | p :: ps, c :: s' => (toLowerAscii p == toLowerAscii c) && likeMatch ps s'

/-- The row predicate of the `get_messages_since` WHERE clause. -/
def messageFilter (chat_jid since_timestamp botName : String) (r : MessageRow) : Bool :=
  r.chat_jid == chat_jid &&
  textLt since_timestamp.data r.timestamp.data &&
  r.is_bot_message == false &&
  (match r.content with
   | none => false
   | some c => !likeMatch (botName ++ ":%").data c.data && !(c == ""))

def byTimestamp (a b : MessageRow) : Prop := textLe a.timestamp.data b.timestamp.data = true

instance : DecidableRel byTimestamp := fun a b => inferInstanceAs (Decidable (_ = _))

def get_messages_since (table : List MessageRow)
    (chat_jid since_timestamp botName : String) : List MessageRow :=
  (table.filter (messageFilter chat_jid since_timestamp botName)).insertionSort byTimestamp

/-- The returned-row set exactly as the claim words it: excluded are bot-authored
rows, rows whose content starts with `<bot-prefix>:` (case-sensitively), empty
and NULL contents; restricted to timestamps strictly after the cursor. -/
def claimMessagesSince (table : List MessageRow)
    (chat_jid since_timestamp botName : String) : List MessageRow :=
  (table.filter (fun r =>
    r.chat_jid == chat_jid &&
    textLt since_timestamp.data r.timestamp.data &&
    r.is_bot_message == false &&
    (match r.content with
     | none => false
     | some c => !((botName ++ ":").data.isPrefixOf c.data) && !(c == "")))).insertionSort byTimestamp

theorem mem_get_messages_since {table : List MessageRow}
    {chat_jid since_timestamp botName : String} {r : MessageRow} :
    r ∈ get_messages_since table chat_jid since_timestamp botName ↔
      r ∈ table ∧ messageFilter chat_jid since_timestamp botName r = true := by
  unfold get_messages_since
  rw [(List.perm_insertionSort byTimestamp _).mem_iff, List.mem_filter]

theorem messageFilter_iff {chat_jid since_timestamp botName : String} {r : MessageRow} :
    messageFilter chat_jid since_timestamp botName r = true ↔
      (r.chat_jid = chat_jid ∧ textLt since_timestamp.data r.timestamp.data = true ∧
        r.is_bot_message = false ∧
        ∃ c, r.content = some c ∧ c ≠ "" ∧ likeMatch (botName ++ ":%").data c.data = false) := by
  unfold messageFilter
  cases hc : r.content with
  | none => simp [hc]
  | some c =>
    simp only [hc, Bool.and_eq_true, beq_iff_eq, decide_eq_true_eq, Bool.not_eq_true',
      Option.some.injEq]
    constructor
    · rintro ⟨⟨⟨h1, h2⟩, h3⟩, h4, h5⟩
      exact ⟨h1, h2, h3, c, rfl, by simpa using h5, h4⟩
    · rintro ⟨h1, h2, h3, c', hc', h5, h4⟩
      cases hc'
      exact ⟨⟨⟨h1, h2⟩, h3⟩, h4, by simpa using h5⟩

theorem sorted_get_messages_since (table : List MessageRow)
    (chat_jid since_timestamp botName : String) :
    List.Sorted byTimestamp (get_messages_since table chat_jid since_timestamp botName) := by
  haveI : IsTotal MessageRow byTimestamp :=
    ⟨fun a b => textLe_total a.timestamp.data b.timestamp.data⟩
  haveI : IsTrans MessageRow byTimestamp := ⟨fun _ _ _ h1 h2 => textLe_trans h1 h2⟩
  exact List.sorted_insertionSort byTimestamp _

/-- C9 counterexample: with bot name `bot`, a row whose content is `"BOT: hi"`
(which does NOT start with `"bot:"`) is excluded by the code's case-insensitive
SQL `LIKE`, while the claim's description of the returned set retains it. -/
theorem c9_messages_since_counterexample :
    get_messages_since
        [{ id := "1", chat_jid := "gh:o/r#issue:1", sender := "u", sender_name := "u",
           content := some "BOT: hi", timestamp := "2024-01-02T00:00:00Z" }]
        "gh:o/r#issue:1" "" "bot" = [] ∧
    claimMessagesSince
        [{ id := "1", chat_jid := "gh:o/r#issue:1", sender := "u", sender_name := "u",
           content := some "BOT: hi", timestamp := "2024-01-02T00:00:00Z" }]
        "gh:o/r#issue:1" "" "bot"
      = [{ id := "1", chat_jid := "gh:o/r#issue:1", sender := "u", sender_name := "u",
           content := some "BOT: hi", timestamp := "2024-01-02T00:00:00Z" }] := by
  constructor <;> rfl

/-- C9 (amended): `get_messages_since` returns, ordered by timestamp ascending,
exactly the rows of the chat with timestamp strictly greater than the cursor
that are not bot-authored, whose content is present (not NULL), non-empty, and
does not match the pattern `<bot-prefix>:%` under SQLite's ASCII-case-insensitive
`LIKE`. -/
theorem c9_messages_since_amended (table : List MessageRow)
    (chat_jid since_timestamp botName : String) :
    (∀ r ∈ get_messages_since table chat_jid since_timestamp botName,
        r ∈ table ∧ r.chat_jid = chat_jid ∧ textLt since_timestamp.data r.timestamp.data = true ∧
        r.is_bot_message = false ∧
        ∃ c, r.content = some c ∧ c ≠ "" ∧
          likeMatch (botName ++ ":%").data c.data = false) ∧
    (∀ r ∈ table, r.chat_jid = chat_jid → textLt since_timestamp.data r.timestamp.data = true →
        r.is_bot_message = false →
        (∃ c, r.content = some c ∧ c ≠ "" ∧ likeMatch (botName ++ ":%").data c.data = false) →
        r ∈ get_messages_since table chat_jid since_timestamp botName) ∧
    List.Sorted byTimestamp (get_messages_since table chat_jid since_timestamp botName) := by
  refine ⟨?_, ?_, sorted_get_messages_since table chat_jid since_timestamp botName⟩
  · intro r hr
    obtain ⟨hmem, hfil⟩ := mem_get_messages_since.mp hr
    obtain ⟨h1, h2, h3, h4⟩ := messageFilter_iff.mp hfil
    exact ⟨hmem, h1, h2, h3, h4⟩
  · intro r hmem h1 h2 h3 h4
    exact mem_get_messages_since.mpr ⟨hmem, messageFilter_iff.mpr ⟨h1, h2, h3, h4⟩⟩

/-- A sample stored row used to exercise the message-query theorems. -/
def sampleRow : MessageRow :=
  { id := "1", chat_jid := "c", sender := "u", sender_name := "u",
    content := some "hello", timestamp := "2" }

theorem c9_messages_since_amended_witness :
    (∀ r ∈ get_messages_since [sampleRow] "c" "1" "bot",
        r ∈ [sampleRow] ∧ r.chat_jid = "c" ∧
        textLt "1".data r.timestamp.data = true ∧ r.is_bot_message = false ∧
        ∃ c, r.content = some c ∧ c ≠ "" ∧ likeMatch ("bot" ++ ":%").data c.data = false) ∧
    (∀ r ∈ [sampleRow], r.chat_jid = "c" →
        textLt "1".data r.timestamp.data = true → r.is_bot_message = false →
        (∃ c, r.content = some c ∧ c ≠ "" ∧ likeMatch ("bot" ++ ":%").data c.data = false) →
        r ∈ get_messages_since [sampleRow] "c" "1" "bot") ∧
    List.Sorted byTimestamp (get_messages_since [sampleRow] "c" "1" "bot") :=
  c9_messages_since_amended [sampleRow] "c" "1" "bot"

/-! ## Cursor handling (src/codeclaw/main.py, `_process_group_messages`)

The agent run itself (`_run_agent`) is abstracted by its outcome. The missed
messages are read through `get_messages_since`; the cursor is advanced to the
last missed timestamp before the run and restored to `previous_cursor` when the
run surfaces an error. The local `output_sent` in the source is initialized
`False` and never assigned, so the error branch always rolls back. -/

inductive RunOutcome where
  | success
  | error
deriving DecidableEq, Repr

/-- Net effect of one `_process_group_messages` call on the chat's cursor:
returns the post-call cursor and the success flag handed back to the queue. -/
def process_group_messages (table : List MessageRow) (groupRegistered channelFound : Bool)
    (chat_jid botName cursor : String) (runResult : RunOutcome) : String × Bool :=
  if !groupRegistered then (cursor, true)
  else if !channelFound then (cursor, true)
  else
    match (get_messages_since table chat_jid cursor botName).getLast? with
    | none => (cursor, true)
    | some lastMsg =>
      match runResult with
      | .error => (cursor, false)
      | .success => (lastMsg.timestamp, true)

theorem getLast?_mem {α : Type} {l : List α} {a : α} (h : l.getLast? = some a) : a ∈ l := by
  have ha : a ∈ l.getLast? := by rw [h]; rfl
  obtain ⟨h0, heq⟩ := List.mem_getLast?_eq_getLast ha
  rw [heq]
  exact List.getLast_mem h0

theorem textLe_refl (a : List Char) : textLe a a = true := by
  unfold textLe
  simp

/-- C4: across one `_process_group_messages` call the cursor never moves
backwards; a run surfacing an error (which in this code always has
`output_sent = False`) leaves the cursor at its pre-run value and reports
failure so the same range is replayed; and whenever the cursor changed, the
run completed without surfaced error and the cursor strictly advanced. -/
theorem c4_cursor_advancement (table : List MessageRow) (groupRegistered channelFound : Bool)
    (chat_jid botName cursor : String) (runResult : RunOutcome) :
    textLe cursor.data
      (process_group_messages table groupRegistered channelFound
        chat_jid botName cursor runResult).1.data = true ∧
    (runResult = RunOutcome.error →
      (process_group_messages table groupRegistered channelFound
        chat_jid botName cursor runResult).1 = cursor) ∧
    ((process_group_messages table groupRegistered channelFound
        chat_jid botName cursor runResult).1 ≠ cursor →
      runResult = RunOutcome.success ∧
      (process_group_messages table groupRegistered channelFound
        chat_jid botName cursor runResult).2 = true ∧
      textLt cursor.data
        (process_group_messages table groupRegistered channelFound
          chat_jid botName cursor runResult).1.data = true) := by
  unfold process_group_messages
  cases groupRegistered with
  | false => exact ⟨textLe_refl _, fun _ => rfl, fun hne => absurd rfl hne⟩
  | true =>
    cases channelFound with
    | false => exact ⟨textLe_refl _, fun _ => rfl, fun hne => absurd rfl hne⟩
    | true =>
      simp only [Bool.not_true, Bool.false_eq_true, if_false]
      cases hlast : (get_messages_since table chat_jid cursor botName).getLast? with
      | none => exact ⟨textLe_refl _, fun _ => rfl, fun hne => absurd rfl hne⟩
      | some lastMsg =>
        have hmem := getLast?_mem hlast
        obtain ⟨-, hfil⟩ := mem_get_messages_since.mp hmem
        obtain ⟨-, hts, -⟩ := messageFilter_iff.mp hfil
        cases runResult with
        | error => exact ⟨textLe_refl _, fun _ => rfl, fun hne => absurd rfl hne⟩
        | success =>
          refine ⟨?_, ?_, ?_⟩
          · unfold textLe
            simp [hts]
          · intro hcon
            cases hcon
          · intro _
            exact ⟨rfl, rfl, hts⟩

theorem c4_cursor_advancement_witness :
    textLe "1".data
      (process_group_messages [sampleRow] true true "c" "bot" "1" RunOutcome.success).1.data = true ∧
    (RunOutcome.success = RunOutcome.error →
      (process_group_messages [sampleRow] true true "c" "bot" "1" RunOutcome.success).1 = "1") ∧
    ((process_group_messages [sampleRow] true true "c" "bot" "1" RunOutcome.success).1 ≠ "1" →
      RunOutcome.success = RunOutcome.success ∧
      (process_group_messages [sampleRow] true true "c" "bot" "1" RunOutcome.success).2 = true ∧
      textLt "1".data
        (process_group_messages [sampleRow] true true "c" "bot" "1" RunOutcome.success).1.data
          = true) :=
  c4_cursor_advancement [sampleRow] true true "c" "bot" "1" RunOutcome.success

/-! ## Container runner, legacy output parse (src/clawcode/container_runner.py)

After a zero exit without timeout and with no streaming callback, the code runs
```
start_idx = stdout_text.find(OUTPUT_START_MARKER)
end_idx = stdout_text.find(OUTPUT_END_MARKER)
if start_idx != -1 and end_idx != -1 and end_idx > start_idx:
    json_line = stdout_text[start_idx + len(OUTPUT_START_MARKER):end_idx].strip()
else:
    json_line = stdout_text.strip().split("\n")[-1]
```
and feeds `json_line` to `json.loads` (abstracted here by an oracle); a parse
failure yields status `error`. `str.find` returns the FIRST occurrence. -/

def OUTPUT_START_MARKER : String := "---CLAWCODE_OUTPUT_START---"

def OUTPUT_END_MARKER : String := "---CLAWCODE_OUTPUT_END---"

structure ContainerOutput where
  status : String
  result : Option String := none
  new_session_id : Option String := none
  error : Option String := none
deriving DecidableEq, Repr

/-- The substring handed to `json.loads` by the legacy branch. -/
def legacyParseLine (stdout_text : String) : String :=
  let sIdx := findSub OUTPUT_START_MARKER.data stdout_text.data
  let eIdx := findSub OUTPUT_END_MARKER.data stdout_text.data
  match sIdx, eIdx with
  | some s, some e =>
    if s < e then
      ⟨pyStrip (((stdout_text.data.drop (s + OUTPUT_START_MARKER.data.length))).take
        (e - (s + OUTPUT_START_MARKER.data.length)))⟩
    else ⟨((pyStrip stdout_text.data).splitOn '\n').getLastD []⟩
  | _, _ => ⟨((pyStrip stdout_text.data).splitOn '\n').getLastD []⟩

/-- The legacy completion path of `run_container_agent`. -/
def legacy_parse (jsonParse : String → Option ContainerOutput)
    (stdout_text : String) : ContainerOutput :=
  match jsonParse (legacyParseLine stdout_text) with
  | some out => out
  | none => { status := "error", error := some "Failed to parse container output" }

/-- C5 evidence: with two well-formed marker pairs in stdout, the legacy parse
hands `json.loads` the JSON between the FIRST pair, not the last one, because
`str.find` yields first occurrences — contradicting the code's own comment
("parse last output marker pair") and the claim. -/
theorem c5_legacy_parse_first_pair :
    legacyParseLine (OUTPUT_START_MARKER ++ "\x7b\"n\":1\x7d" ++ OUTPUT_END_MARKER
        ++ OUTPUT_START_MARKER ++ "\x7b\"n\":2\x7d" ++ OUTPUT_END_MARKER)
      = "\x7b\"n\":1\x7d" ∧
    "\x7b\"n\":1\x7d" ≠ "\x7b\"n\":2\x7d" := by
  constructor
  · rfl
  · decide

/-! ## Mount security (src/clawcode/mount_security.py)

The filesystem is abstracted by an oracle `resolve : String → Option String`
standing for `_get_real_path(_expand_path(p))` — exactly the composition the
code applies both to the requested host path and to each allowed root
(`none` = the path does not exist / realpath failed). The allowlist parameter
stands for the result of `load_mount_allowlist()` (with
`DEFAULT_BLOCKED_PATTERNS` already merged in, as the loader does);
`none` = missing or unreadable allowlist (default-deny). -/

structure AdditionalMount where
  host_path : String
  container_path : Option String := none
  readonly : Bool := true
deriving DecidableEq, Repr

structure AllowedRoot where
  path : String
  allow_read_write : Bool := false
  description : Option String := none
deriving DecidableEq, Repr

structure MountAllowlist where
  allowed_roots : List AllowedRoot := []
  blocked_patterns : List String := []
  non_main_read_only : Bool := true
deriving DecidableEq, Repr

def DEFAULT_BLOCKED_PATTERNS : List String :=
  [".ssh", ".gnupg", ".gpg", ".aws", ".azure", ".gcloud", ".kube", ".docker",
   "credentials", ".env", ".netrc", ".npmrc", ".pypirc",
   "id_rsa", "id_ed25519", "private_key", ".secret"]

/-- `os.path.basename` (POSIX): the part after the last `/`. -/
def basename (p : String) : String :=
  ⟨(p.data.splitOn '/').getLastD []⟩

def _is_valid_container_path (p : String) : Bool :=
  !(hasSub "..".data p.data) &&
  !(match p.data with | '/' :: _ => true | _ => false) &&
  !(p.data == []) && !(pyStrip p.data == [])

def partMatches (pattern : String) (parts : List (List Char)) : Bool :=
  parts.any (fun part => part == pattern.data || hasSub pattern.data part)

def _matches_blocked_pattern (real_path : String) : List String → Option String
  | [] => none
  | pattern :: rest =>
    if partMatches pattern (real_path.data.splitOn '/')
        || hasSub pattern.data real_path.data then some pattern
    else _matches_blocked_pattern real_path rest

/-- `Path(real_path).relative_to(real_root)` succeeds iff the root's components
are a prefix of the path's components. -/
def isPathUnder (real_path real_root : List Char) : Bool :=
  (real_root.splitOn '/').isPrefixOf (real_path.splitOn '/')

def _find_allowed_root (resolve : String → Option String) (real_path : String) :
    List AllowedRoot → Option AllowedRoot
  | [] => none
  | root :: rest =>
    match resolve root.path with
    | none => _find_allowed_root resolve real_path rest
    | some real_root =>
      if isPathUnder real_path.data real_root.data then some root
      else _find_allowed_root resolve real_path rest

structure MountValidationResult where
  allowed : Bool
  reason : String
  real_host_path : Option String := none
  resolved_container_path : Option String := none
  effective_readonly : Option Bool := none
deriving DecidableEq, Repr

/-- Python `mount.container_path or os.path.basename(mount.host_path)`: the
empty string is falsy, so it also falls back to the basename. -/
def containerPathOrBasename (mount : AdditionalMount) : String :=
  match mount.container_path with
  | none => basename mount.host_path
  | some s => if s = "" then basename mount.host_path else s

def validate_mount (resolve : String → Option String) (allowlist : Option MountAllowlist)
    (mount : AdditionalMount) (is_main : Bool) : MountValidationResult :=
  match allowlist with
  | none => { allowed := false, reason := "No mount allowlist configured" }
  | some al =>
    let container_path := containerPathOrBasename mount
    if !_is_valid_container_path container_path then
      { allowed := false, reason := "Invalid container path" }
    else
      match resolve mount.host_path with
      | none => { allowed := false, reason := "Host path does not exist" }
      | some real_path =>
        match _matches_blocked_pattern real_path al.blocked_patterns with
        | some _ => { allowed := false, reason := "Path matches blocked pattern" }
        | none =>
          match _find_allowed_root resolve real_path al.allowed_roots with
          | none => { allowed := false, reason := "Path is not under any allowed root" }
          | some allowed_root =>
            let requested_read_write := mount.readonly == false
            let effective_readonly :=
              if requested_read_write then
                if !is_main && al.non_main_read_only then true
                else if !allowed_root.allow_read_write then true
                else false
              else true
            { allowed := true, reason := "Allowed under root",
              real_host_path := some real_path,
              resolved_container_path := some container_path,
              effective_readonly := some effective_readonly }

structure ValidatedMount where
  host_path : Option String
  container_path : String
  readonly : Option Bool
deriving DecidableEq, Repr

def validate_additional_mounts (resolve : String → Option String)
    (allowlist : Option MountAllowlist) (mounts : List AdditionalMount)
    (is_main : Bool) : List ValidatedMount :=
  match mounts with
  | [] => []
  | m :: rest =>
    let result := validate_mount resolve allowlist m is_main
    if result.allowed then
      { host_path := result.real_host_path,
        container_path := "/workspace/extra/" ++ (result.resolved_container_path.getD "None"),
        readonly := result.effective_readonly }
        :: validate_additional_mounts resolve allowlist rest is_main
    else validate_additional_mounts resolve allowlist rest is_main

theorem find_allowed_root_mem {resolve : String → Option String} {real_path : String}
    {roots : List AllowedRoot} {root : AllowedRoot}
    (h : _find_allowed_root resolve real_path roots = some root) : root ∈ roots := by
  induction roots with
  | nil => cases h
  | cons r rest ih =>
    simp only [_find_allowed_root] at h
    cases hres : resolve r.path with
    | none =>
      simp only [hres] at h
      exact List.mem_cons_of_mem r (ih h)
    | some real_root =>
      simp only [hres] at h
      by_cases hu : isPathUnder real_path.data real_root.data = true
      · rw [if_pos hu] at h
        injection h with h'
        rw [← h']
        exact List.mem_cons_self r rest
      · rw [if_neg hu] at h
        exact List.mem_cons_of_mem r (ih h)

theorem effective_readonly_formula (req nm nmro arw : Bool) :
    (if req = true then
      if (!nm && nmro) = true then true
      else if (!arw) = true then true
      else false
     else true)
    = !(req && (nm || !nmro) && arw) := by
  cases req <;> cases nm <;> cases nmro <;> cases arw <;> rfl

theorem validate_mount_allowed {resolve : String → Option String}
    {allowlist : Option MountAllowlist} {mount : AdditionalMount} {is_main : Bool}
    (h : (validate_mount resolve allowlist mount is_main).allowed = true) :
    ∃ al, allowlist = some al ∧
    _is_valid_container_path (containerPathOrBasename mount) = true ∧
    ∃ real_path, resolve mount.host_path = some real_path ∧
    ∃ root, _find_allowed_root resolve real_path al.allowed_roots = some root ∧
      root ∈ al.allowed_roots ∧
      (validate_mount resolve allowlist mount is_main)
        = { allowed := true, reason := "Allowed under root",
            real_host_path := some real_path,
            resolved_container_path := some (containerPathOrBasename mount),
            effective_readonly := some (!((mount.readonly == false)
              && (is_main || !al.non_main_read_only) && root.allow_read_write)) } := by
  cases allowlist with
  | none =>
    rw [validate_mount] at h
    cases h
  | some al =>
    refine ⟨al, rfl, ?_⟩
    simp only [validate_mount] at h
    by_cases hcp : _is_valid_container_path (containerPathOrBasename mount) = true
    · rw [hcp] at h
      simp only [Bool.not_true, Bool.false_eq_true, if_false] at h
      cases hres : resolve mount.host_path with
      | none =>
        simp only [hres] at h
        cases h
      | some real_path =>
        simp only [hres] at h
        cases hblk : _matches_blocked_pattern real_path al.blocked_patterns with
        | some p =>
          simp only [hblk] at h
          cases h
        | none =>
          simp only [hblk] at h
          cases hroot : _find_allowed_root resolve real_path al.allowed_roots with
          | none =>
            simp only [hroot] at h
            cases h
          | some root =>
            refine ⟨hcp, real_path, rfl, root, hroot, find_allowed_root_mem hroot, ?_⟩
            simp only [validate_mount, hcp, Bool.not_true, Bool.false_eq_true, if_false,
              hres, hblk, hroot]
            rw [effective_readonly_formula]
    · rw [Bool.not_eq_true] at hcp
      rw [hcp] at h
      simp only [Bool.not_false, if_true] at h
      cases h

/-- C10: every mount accepted by `validate_additional_mounts` comes from one of
the requests, is remapped under `/workspace/extra/` using that request's OWN
validated relative container path (its `container_path`, or the basename of
its host path when absent or empty), carries that request's own resolved real
host path, and its readonly flag is `true` unless that same request set
`readonly` exactly to `false`, the allowed root matched for its own real path
allows read-write, and (for non-main groups) `non_main_read_only` is unset. -/
theorem c10_additional_mounts (resolve : String → Option String)
    (allowlist : Option MountAllowlist) (mounts : List AdditionalMount) (is_main : Bool) :
    ∀ v ∈ validate_additional_mounts resolve allowlist mounts is_main,
      ∃ m ∈ mounts, ∃ al, allowlist = some al ∧
        _is_valid_container_path (containerPathOrBasename m) = true ∧
        v.container_path = "/workspace/extra/" ++ containerPathOrBasename m ∧
        ∃ real_path, resolve m.host_path = some real_path ∧
          v.host_path = some real_path ∧
        ∃ root, _find_allowed_root resolve real_path al.allowed_roots = some root ∧
          root ∈ al.allowed_roots ∧
          v.readonly = some (!((m.readonly == false) && (is_main || !al.non_main_read_only)
            && root.allow_read_write)) := by
  induction mounts with
  | nil => intro v hv; cases hv
  | cons m rest ih =>
    intro v hv
    unfold validate_additional_mounts at hv
    by_cases hall : (validate_mount resolve allowlist m is_main).allowed = true
    · rw [if_pos hall] at hv
      rcases List.mem_cons.mp hv with rfl | hv2
      · obtain ⟨al, hal, hcp, real_path, hres, root, hroot, hrootmem, heq⟩ :=
          validate_mount_allowed hall
        refine ⟨m, List.mem_cons_self m rest, al, hal, hcp, ?_, real_path, hres, ?_,
          root, hroot, hrootmem, ?_⟩
        · show "/workspace/extra/"
              ++ ((validate_mount resolve allowlist m is_main).resolved_container_path.getD
                "None")
            = _
          rw [heq, Option.getD_some]
        · show (validate_mount resolve allowlist m is_main).real_host_path = some real_path
          rw [heq]
        · show (validate_mount resolve allowlist m is_main).effective_readonly = _
          rw [heq]
      · obtain ⟨m2, hm2, rest2⟩ := ih v hv2
        exact ⟨m2, List.mem_cons_of_mem m hm2, rest2⟩
    · rw [if_neg hall] at hv
      obtain ⟨m2, hm2, rest2⟩ := ih v hv
      exact ⟨m2, List.mem_cons_of_mem m hm2, rest2⟩

/-- A tiny concrete filesystem: `/data` and `/data/x` exist and resolve to
themselves. -/
def sampleResolve : String → Option String := fun p =>
  if p = "/data/x" then some "/data/x"
  else if p = "/data" then some "/data"
  else none

def sampleAllowlist : MountAllowlist :=
  { allowed_roots := [{ path := "/data", allow_read_write := true }] }

def sampleMount : AdditionalMount := { host_path := "/data/x", readonly := false }

def sampleValidated : ValidatedMount :=
  { host_path := some "/data/x", container_path := "/workspace/extra/x",
    readonly := some false }

theorem c10_additional_mounts_witness :
    ∃ m ∈ [sampleMount], ∃ al, (some sampleAllowlist) = some al ∧
      _is_valid_container_path (containerPathOrBasename m) = true ∧
      sampleValidated.container_path = "/workspace/extra/" ++ containerPathOrBasename m ∧
      ∃ real_path, sampleResolve m.host_path = some real_path ∧
        sampleValidated.host_path = some real_path ∧
      ∃ root, _find_allowed_root sampleResolve real_path al.allowed_roots = some root ∧
        root ∈ al.allowed_roots ∧
        sampleValidated.readonly
          = some (!((m.readonly == false) && (true || !al.non_main_read_only)
              && root.allow_read_write)) :=
  c10_additional_mounts sampleResolve (some sampleAllowlist) [sampleMount] true
    sampleValidated (by decide)

/-! ## Group queue (src/codeclaw/group_queue.py)

The queue is a single-threaded (event-loop) object. Its synchronous methods
are modelled as functions on an explicit state; the coroutines launched with
`asyncio.ensure_future` (`_run_for_group` / `_run_task`) are modelled as
in-flight runs: launching appends a `launched` entry, the scheduler later
runs the coroutine prologue (`started`), and completion executes the
`finally` block plus `_drain_group`, atomically — exactly the synchronous
blocks of the Python code, which contain no `await`. Filesystem writes
(`_close` sentinel, piped input files) are explicit effects.
`MAX_CONCURRENT_CONTAINERS` is the parameter `MAX`; `_active_count` is an
`Int`, as a Python int can go negative. -/

def MAX_RETRIES : Nat := 5

structure QueuedTask where
  id : String
deriving DecidableEq, Repr

structure GState where
  active : Bool := false
  idle_waiting : Bool := false
  is_task_container : Bool := false
  pending_messages : Bool := false
  pending_tasks : List QueuedTask := []
  group_folder : Option String := none
  retry_count : Nat := 0
deriving DecidableEq, Repr

inductive RunKind where
  | messages
  | task (t : QueuedTask)
deriving DecidableEq, Repr

inductive RunPhase where
  | launched
  | started
deriving DecidableEq, Repr

structure InFlight where
  jid : String
  phase : RunPhase
  kind : RunKind
deriving DecidableEq, Repr

inductive Effect where
  | closeSentinel (folder : String)
  | inputFile (folder : String) (text : String)
deriving DecidableEq, Repr

structure QueueState where
  groups : List (String × GState) := []
  active_count : Int := 0
  waiting_groups : List String := []
  shutting_down : Bool := false
  runs : List InFlight := []
deriving DecidableEq, Repr

/-- `self._groups` dictionary read (with the `_get_group` default). -/
def getGroupL : List (String × GState) → String → GState
  | [], _ => {}
  | (k, g) :: rest, jid => if k = jid then g else getGroupL rest jid

/-- `self._groups` dictionary write (insert-or-replace). -/
def setGroupL : List (String × GState) → String → GState → List (String × GState)
  | [], jid, g => [(jid, g)]
  | (k, g0) :: rest, jid, g =>
    if k = jid then (jid, g) :: rest else (k, g0) :: setGroupL rest jid g

def getGroup (s : QueueState) (jid : String) : GState := getGroupL s.groups jid

def setGroup (s : QueueState) (jid : String) (g : GState) : QueueState :=
  { s with groups := setGroupL s.groups jid g }

/-- `self._activate(state)` followed by `asyncio.ensure_future(...)`:
the caller passes the group state to store (already holding `active := true`)
and the kind of run being launched. -/
def activate_launch (s : QueueState) (jid : String) (st1 : GState) (k : RunKind) : QueueState :=
  let s1 := setGroup s jid st1
  { s1 with active_count := s1.active_count + 1,
            runs := s1.runs ++ [⟨jid, RunPhase.launched, k⟩] }

def enqueue_message_check (MAX : Nat) (s : QueueState) (group_jid : String) :
    QueueState × List Effect :=
  if s.shutting_down then (s, [])
  else
    let st := getGroup s group_jid
    if st.active then
      (setGroup s group_jid { st with pending_messages := true }, [])
    else if (MAX : Int) ≤ s.active_count then
      let s1 := setGroup s group_jid { st with pending_messages := true }
      let s2 := if group_jid ∈ s1.waiting_groups then s1
                else { s1 with waiting_groups := s1.waiting_groups ++ [group_jid] }
      (s2, [])
    else
      (activate_launch s group_jid { st with active := true } RunKind.messages, [])

def close_stdin (s : QueueState) (group_jid : String) : QueueState × List Effect :=
  let st := getGroup s group_jid
  let s1 := setGroup s group_jid st
  match st.active, st.group_folder with
  | true, some f => (s1, [Effect.closeSentinel f])
  | _, _ => (s1, [])

def enqueue_task (MAX : Nat) (s : QueueState) (group_jid task_id : String) :
    QueueState × List Effect :=
  if s.shutting_down then (s, [])
  else
    let st := getGroup s group_jid
    if st.pending_tasks.any (fun t => t.id = task_id) then
      (setGroup s group_jid st, [])
    else if st.active then
      let s1 := setGroup s group_jid
        { st with pending_tasks := st.pending_tasks ++ [⟨task_id⟩] }
      if st.idle_waiting then close_stdin s1 group_jid else (s1, [])
    else if (MAX : Int) ≤ s.active_count then
      let s1 := setGroup s group_jid
        { st with pending_tasks := st.pending_tasks ++ [⟨task_id⟩] }
      let s2 := if group_jid ∈ s1.waiting_groups then s1
                else { s1 with waiting_groups := s1.waiting_groups ++ [group_jid] }
      (s2, [])
    else
      (activate_launch s group_jid { st with active := true }
        (RunKind.task ⟨task_id⟩), [])

def register_process (s : QueueState) (group_jid : String)
    (group_folder : Option String) : QueueState :=
  let st := getGroup s group_jid
  match group_folder with
  | some f => setGroup s group_jid { st with group_folder := some f }
  | none => setGroup s group_jid st

def notify_idle (s : QueueState) (group_jid : String) : QueueState × List Effect :=
  let st := getGroup s group_jid
  let s1 := setGroup s group_jid { st with idle_waiting := true }
  if !st.pending_tasks.isEmpty then close_stdin s1 group_jid else (s1, [])

def send_message (s : QueueState) (group_jid text : String) :
    QueueState × Bool × List Effect :=
  let st := getGroup s group_jid
  match st.active, st.group_folder, st.is_task_container with
  | true, some f, false =>
    (setGroup s group_jid { st with idle_waiting := false }, true, [Effect.inputFile f text])
  | _, _, _ => (setGroup s group_jid st, false, [])

/-- Coroutine prologue: the state mutations `_run_for_group` / `_run_task`
perform before their first `await`. -/
def run_prologue (s : QueueState) (r : InFlight) : QueueState :=
  let st := getGroup s r.jid
  match r.kind with
  | RunKind.messages =>
    setGroup s r.jid
      { st with idle_waiting := false, is_task_container := false, pending_messages := false }
  | RunKind.task _ =>
    setGroup s r.jid { st with idle_waiting := false, is_task_container := true }

def start_run (s : QueueState) (pre : List InFlight) (r : InFlight)
    (post : List InFlight) : QueueState :=
  let s1 := run_prologue s r
  { s1 with runs := pre ++ ({ r with phase := RunPhase.started } :: post) }

/-- `_schedule_retry` bookkeeping (the delayed `enqueue_message_check` it
schedules appears in a trace as a later operation of its own). -/
def schedule_retry (st : GState) : GState :=
  if st.retry_count + 1 > MAX_RETRIES then { st with retry_count := 0 }
  else { st with retry_count := st.retry_count + 1 }

def drain_waiting (MAX : Nat) (s : QueueState) : QueueState :=
  match h : s.waiting_groups with
  | [] => s
  | next_jid :: rest =>
    if s.active_count < (MAX : Int) then
      let s1 : QueueState := { s with waiting_groups := rest }
      let st := getGroup s1 next_jid
      match st.pending_tasks with
      | t :: ts =>
        drain_waiting MAX
          (activate_launch s1 next_jid { st with pending_tasks := ts, active := true }
            (RunKind.task t))
      | [] =>
        if st.pending_messages then
          drain_waiting MAX
            (activate_launch s1 next_jid { st with active := true } RunKind.messages)
        else
          drain_waiting MAX (setGroup s1 next_jid st)
    else s
termination_by s.waiting_groups.length
decreasing_by
  all_goals simp only [activate_launch, setGroup, h, List.length_cons]
  all_goals omega

def drain_group (MAX : Nat) (s : QueueState) (group_jid : String) : QueueState :=
  if s.shutting_down then s
  else
    let st := getGroup s group_jid
    match st.pending_tasks with
    | t :: ts =>
      activate_launch s group_jid { st with pending_tasks := ts, active := true }
        (RunKind.task t)
    | [] =>
      if st.pending_messages then
        activate_launch s group_jid { st with active := true } RunKind.messages
      else
        drain_waiting MAX (setGroup s group_jid st)

/-- The group-state updates of the `finally` block: release the slot and clear
the handles (`_run_task` additionally clears `is_task_container`). -/
def released (st : GState) (isTask : Bool) : GState :=
  if isTask then
    { st with active := false, is_task_container := false, group_folder := none }
  else { st with active := false, group_folder := none }

/-- The `finally` block of `_run_for_group` / `_run_task`: release the slot,
clear the handles, decrement the counter; the completed run (decomposed as
`pre ++ [r] ++ post` of the in-flight list) disappears. -/
def run_epilogue (s0 : QueueState) (jid : String) (isTask : Bool)
    (pre post : List InFlight) : QueueState :=
  let s1 := setGroup s0 jid (released (getGroup s0 jid) isTask)
  { s1 with active_count := s1.active_count - 1, runs := pre ++ post }

/-- Completion of an in-flight run: the tail of the `try` block of
`_run_for_group` (retry bookkeeping, for message runs), then the `finally`
block, ending in `_drain_group`. -/
def complete_run (MAX : Nat) (s : QueueState) (pre : List InFlight) (r : InFlight)
    (post : List InFlight) (ok : Bool) : QueueState :=
  let s0 : QueueState :=
    match r.kind with
    | RunKind.messages =>
      let st := getGroup s r.jid
      if ok then setGroup s r.jid { st with retry_count := 0 }
      else setGroup s r.jid (schedule_retry st)
    | RunKind.task _ => s
  let isTask := match r.kind with
    | RunKind.messages => false
    | RunKind.task _ => true
  drain_group MAX (run_epilogue s0 r.jid isTask pre post) r.jid

def queue_shutdown (s : QueueState) : QueueState :=
  { s with shutting_down := true }

/-- One scheduler event of the queue: a synchronous method call, the start of
a launched coroutine, or the completion of a started one. -/
inductive Step (MAX : Nat) : QueueState → QueueState → Prop where
  | enqueueMsg (s : QueueState) (jid : String) :
      Step MAX s (enqueue_message_check MAX s jid).1
  | enqueueTask (s : QueueState) (jid task_id : String) :
      Step MAX s (enqueue_task MAX s jid task_id).1
  | notifyIdle (s : QueueState) (jid : String) :
      Step MAX s (notify_idle s jid).1
  | sendMsg (s : QueueState) (jid text : String) :
      Step MAX s (send_message s jid text).1
  | closeStdin (s : QueueState) (jid : String) :
      Step MAX s (close_stdin s jid).1
  | registerProcess (s : QueueState) (jid : String) (folder : Option String) :
      Step MAX s (register_process s jid folder)
  | startRun (s : QueueState) (pre : List InFlight) (r : InFlight) (post : List InFlight) :
      s.runs = pre ++ r :: post → r.phase = RunPhase.launched →
      Step MAX s (start_run s pre r post)
  | completeRun (s : QueueState) (pre : List InFlight) (r : InFlight)
      (post : List InFlight) (ok : Bool) :
      s.runs = pre ++ r :: post → r.phase = RunPhase.started →
      Step MAX s (complete_run MAX s pre r post ok)
  | shutdown (s : QueueState) :
      Step MAX s (queue_shutdown s)

inductive Reachable (MAX : Nat) : QueueState → Prop where
  | init : Reachable MAX {}
  | step {s s' : QueueState} : Reachable MAX s → Step MAX s s' → Reachable MAX s'

/-! ### Queue invariants -/

/-- Number of in-flight (launched or started, not yet completed) runs of a
given repo-prefix. -/
def runsFor (runs : List InFlight) (jid : String) : Nat :=
  (runs.filter (fun r => r.jid = jid)).length

/-- Number of groups whose slot is active. -/
def countActive (l : List (String × GState)) : Nat :=
  (l.filter (fun p => p.2.active)).length

theorem getGroupL_setGroupL_self (l : List (String × GState)) (jid : String) (g : GState) :
    getGroupL (setGroupL l jid g) jid = g := by
  induction l with
  | nil => simp [getGroupL, setGroupL]
  | cons p rest ih =>
    obtain ⟨k, g0⟩ := p
    by_cases hk : k = jid
    · simp [setGroupL, getGroupL, hk]
    · simp [setGroupL, getGroupL, hk, ih]

theorem getGroupL_setGroupL_ne (l : List (String × GState)) (jid : String) (g : GState)
    (k : String) (h : k ≠ jid) : getGroupL (setGroupL l jid g) k = getGroupL l k := by
  induction l with
  | nil => simp [getGroupL, setGroupL, Ne.symm h]
  | cons p rest ih =>
    obtain ⟨k0, g0⟩ := p
    by_cases hk : k0 = jid
    · subst hk
      simp [setGroupL, getGroupL, Ne.symm h]
    · simp only [setGroupL, if_neg hk]
      by_cases hk2 : k0 = k
      · simp [getGroupL, hk2]
      · simp [getGroupL, hk2, ih]

theorem countActive_setGroupL (l : List (String × GState)) (jid : String) (g : GState) :
    countActive (setGroupL l jid g) + (if (getGroupL l jid).active then 1 else 0)
      = countActive l + (if g.active then 1 else 0) := by
  induction l with
  | nil =>
    cases hg : g.active <;>
      simp [setGroupL, getGroupL, countActive, List.filter, hg]
  | cons p rest ih =>
    obtain ⟨k, g0⟩ := p
    by_cases hk : k = jid
    · simp only [setGroupL, if_pos hk, getGroupL, countActive, List.filter_cons]
      cases hg : g.active <;> cases hg0 : g0.active <;> simp [hg, hg0] <;> omega
    · simp only [setGroupL, if_neg hk, getGroupL, countActive, List.filter_cons]
      unfold countActive at ih
      split_ifs at ih ⊢ <;> (try simp only [List.length_cons] at ih ⊢) <;> omega

theorem runsFor_append (a b : List InFlight) (jid : String) :
    runsFor (a ++ b) jid = runsFor a jid + runsFor b jid := by
  simp [runsFor, List.filter_append]

theorem runsFor_single (r : InFlight) (jid : String) :
    runsFor [r] jid = if r.jid = jid then 1 else 0 := by
  by_cases h : r.jid = jid <;> simp [runsFor, List.filter, h]

structure InvCore (s : QueueState) : Prop where
  perGroup : ∀ jid, runsFor s.runs jid ≤ 1
  activeIff : ∀ jid, (getGroup s jid).active = true ↔ runsFor s.runs jid = 1
  countEq : s.active_count = (countActive s.groups : Int)
  waitingInactive : ∀ jid ∈ s.waiting_groups, (getGroup s jid).active = false
  waitingNodup : s.waiting_groups.Nodup

/-- The queue invariant: at most one in-flight run per repo-prefix, the counter
equals the number of active groups and stays within the global cap, waiting
prefixes hold no slot, and a non-empty waiting list (outside shutdown) means
the cap is exhausted. -/
structure Inv (MAX : Nat) (s : QueueState) : Prop where
  core : InvCore s
  countLe : s.active_count ≤ (MAX : Int)
  waitingCap : s.shutting_down = false → s.waiting_groups ≠ [] → (MAX : Int) ≤ s.active_count

theorem getGroup_setGroup_self (s : QueueState) (jid : String) (g : GState) :
    getGroup (setGroup s jid g) jid = g := getGroupL_setGroupL_self s.groups jid g

theorem getGroup_setGroup_ne (s : QueueState) (jid : String) (g : GState)
    (k : String) (h : k ≠ jid) : getGroup (setGroup s jid g) k = getGroup s k :=
  getGroupL_setGroupL_ne s.groups jid g k h

/-- Rewriting one group without changing its `active` bit (and leaving the
counter, runs, waiting list and shutdown flag alone) preserves the core
invariant. -/
theorem invCore_setGroup {s : QueueState} {jid : String} {g : GState}
    (hc : InvCore s) (hact : g.active = (getGroup s jid).active) :
    InvCore (setGroup s jid g) := by
  refine ⟨hc.perGroup, ?_, ?_, ?_, hc.waitingNodup⟩
  · intro k
    by_cases hk : k = jid
    · subst hk
      rw [getGroup_setGroup_self, hact]
      exact hc.activeIff k
    · rw [getGroup_setGroup_ne s jid g k hk]
      exact hc.activeIff k
  · have hform := countActive_setGroupL s.groups jid g
    have hact' : g.active = (getGroupL s.groups jid).active := hact
    rw [hact'] at hform
    have hcnt : countActive (setGroupL s.groups jid g) = countActive s.groups := by omega
    show s.active_count = (countActive (setGroupL s.groups jid g) : Int)
    rw [hcnt]
    exact hc.countEq
  · intro k hk
    by_cases hkj : k = jid
    · subst hkj
      rw [getGroup_setGroup_self, hact]
      exact hc.waitingInactive k hk
    · rw [getGroup_setGroup_ne s jid g k hkj]
      exact hc.waitingInactive k hk

theorem inv_setGroup {MAX : Nat} {s : QueueState} {jid : String} {g : GState}
    (h : Inv MAX s) (hact : g.active = (getGroup s jid).active) :
    Inv MAX (setGroup s jid g) :=
  ⟨invCore_setGroup h.core hact, h.countLe, h.waitingCap⟩

/-- `runsFor` of a group with no in-flight run is zero. -/
theorem runsFor_eq_zero {s : QueueState} {jid : String} (hc : InvCore s)
    (hia : (getGroup s jid).active = false) : runsFor s.runs jid = 0 := by
  have h1 := hc.perGroup jid
  have h2 := hc.activeIff jid
  rw [hia] at h2
  simp only [Bool.false_eq_true, false_iff] at h2
  omega

/-- Activating an inactive group and launching one run for it preserves the
core invariant; the counter and the active-group count both grow by one. -/
theorem invCore_activate_launch {s : QueueState} {jid : String} {st1 : GState}
    {k : RunKind} (hc : InvCore s) (hia : (getGroup s jid).active = false)
    (ha : st1.active = true) (hnw : jid ∉ s.waiting_groups) :
    InvCore (activate_launch s jid st1 k) := by
  have hzero := runsFor_eq_zero hc hia
  have hruns : (activate_launch s jid st1 k).runs
      = s.runs ++ [⟨jid, RunPhase.launched, k⟩] := rfl
  have hget : ∀ j, getGroup (activate_launch s jid st1 k) j
      = getGroup (setGroup s jid st1) j := fun _ => rfl
  refine ⟨?_, ?_, ?_, ?_, hc.waitingNodup⟩
  · intro j
    rw [hruns, runsFor_append, runsFor_single]
    by_cases hj : jid = j
    · subst hj
      rw [if_pos rfl, hzero]
    · rw [if_neg hj]
      have := hc.perGroup j
      omega
  · intro j
    rw [hruns, runsFor_append, runsFor_single, hget j]
    by_cases hj : j = jid
    · subst hj
      rw [getGroup_setGroup_self, ha, if_pos rfl, hzero]
      simp
    · rw [getGroup_setGroup_ne s jid st1 j hj, if_neg (fun hcon => hj hcon.symm),
        Nat.add_zero]
      exact hc.activeIff j
  · show s.active_count + 1 = (countActive (setGroupL s.groups jid st1) : Int)
    have hform := countActive_setGroupL s.groups jid st1
    have hia' : (getGroupL s.groups jid).active = false := hia
    rw [hia', ha] at hform
    simp only [Bool.false_eq_true, if_false, if_true] at hform
    rw [hc.countEq]
    omega
  · intro j hj
    rw [hget j]
    replace hj : j ∈ s.waiting_groups := hj
    by_cases hjj : j = jid
    · subst hjj
      exact absurd hj hnw
    · rw [getGroup_setGroup_ne s jid st1 j hjj]
      exact hc.waitingInactive j hj

/-- Draining the global waiting list preserves the core invariant, keeps the
counter within the cap, and terminates only with an empty waiting list or an
exhausted cap. -/
theorem drain_waiting_inv (MAX : Nat) :
    ∀ n s, s.waiting_groups.length ≤ n → InvCore s → s.active_count ≤ (MAX : Int) →
    Inv MAX (drain_waiting MAX s) := by
  intro n
  induction n with
  | zero =>
    intro s hlen hc hcl
    have hw : s.waiting_groups = [] := List.eq_nil_of_length_eq_zero (by omega)
    rw [drain_waiting]
    split
    · exact ⟨hc, hcl, fun _ hne => absurd hw hne⟩
    · rename_i next rest heq
      rw [hw] at heq
      cases heq
  | succ n ih =>
    intro s hlen hc hcl
    rw [drain_waiting]
    split
    · rename_i heq
      exact ⟨hc, hcl, fun _ hne => absurd heq hne⟩
    · rename_i next rest heq
      by_cases hcnt : s.active_count < (MAX : Int)
      · rw [if_pos hcnt]
        have hlen1 : rest.length ≤ n := by
          have := hlen
          rw [heq] at this
          simp only [List.length_cons] at this
          omega
        have hnodup : (next :: rest).Nodup := by
          have := hc.waitingNodup
          rw [heq] at this
          exact this
        have hc1 : InvCore { s with waiting_groups := rest } := by
          refine ⟨hc.perGroup, hc.activeIff, hc.countEq, ?_, ?_⟩
          · intro j hj
            exact hc.waitingInactive j (by rw [heq]; exact List.mem_cons_of_mem next hj)
          · exact (List.nodup_cons.mp hnodup).2
        have hia : (getGroup { s with waiting_groups := rest } next).active = false :=
          hc.waitingInactive next (by rw [heq]; exact List.mem_cons_self next rest)
        have hnw : next ∉ ({ s with waiting_groups := rest } : QueueState).waiting_groups :=
          (List.nodup_cons.mp hnodup).1
        cases hpt : (getGroup { s with waiting_groups := rest } next).pending_tasks with
        | cons t ts =>
          simp only [hpt]
          apply ih
          · exact hlen1
          · exact invCore_activate_launch hc1 hia rfl hnw
          · show s.active_count + 1 ≤ (MAX : Int)
            omega
        | nil =>
          simp only [hpt]
          by_cases hpm : (getGroup { s with waiting_groups := rest } next).pending_messages = true
          · rw [if_pos hpm]
            apply ih
            · exact hlen1
            · exact invCore_activate_launch hc1 hia rfl hnw
            · show s.active_count + 1 ≤ (MAX : Int)
              omega
          · rw [if_neg hpm]
            apply ih
            · exact hlen1
            · exact invCore_setGroup hc1 rfl
            · exact hcl
      · rw [if_neg hcnt]
        exact ⟨hc, hcl, fun _ _ => by omega⟩

theorem runsFor_cons (r : InFlight) (l : List InFlight) (jid : String) :
    runsFor (r :: l) jid = (if r.jid = jid then 1 else 0) + runsFor l jid := by
  unfold runsFor
  rw [List.filter_cons]
  by_cases h : r.jid = jid
  · rw [if_pos (decide_eq_true h), if_pos h, List.length_cons]
    omega
  · rw [if_neg (by simp [h]), if_neg h]
    omega

theorem drain_group_inv (MAX : Nat) (s : QueueState) (jid : String)
    (hc : InvCore s) (hia : (getGroup s jid).active = false)
    (hcnt : s.active_count < (MAX : Int))
    (hnw : jid ∉ s.waiting_groups)
    (hcap1 : s.shutting_down = false → s.waiting_groups ≠ [] →
      (MAX : Int) ≤ s.active_count + 1) :
    Inv MAX (drain_group MAX s jid) := by
  rw [drain_group]
  by_cases hsd : s.shutting_down = true
  · rw [if_pos hsd]
    refine ⟨hc, by omega, fun hf _ => ?_⟩
    rw [hf] at hsd
    cases hsd
  · rw [if_neg hsd]
    have hsd' : s.shutting_down = false := by
      revert hsd
      cases s.shutting_down <;> simp
    cases hpt : (getGroup s jid).pending_tasks with
    | cons t ts =>
      simp only [hpt]
      refine ⟨invCore_activate_launch hc hia rfl hnw, ?_, ?_⟩
      · show s.active_count + 1 ≤ (MAX : Int)
        omega
      · intro h1 h2
        exact hcap1 h1 h2
    | nil =>
      simp only [hpt]
      by_cases hpm : (getGroup s jid).pending_messages = true
      · rw [if_pos hpm]
        refine ⟨invCore_activate_launch hc hia rfl hnw, ?_, ?_⟩
        · show s.active_count + 1 ≤ (MAX : Int)
          omega
        · intro h1 h2
          exact hcap1 h1 h2
      · rw [if_neg hpm]
        exact drain_waiting_inv MAX s.waiting_groups.length _ (le_refl _)
          (invCore_setGroup hc rfl)
          (by show s.active_count ≤ (MAX : Int); omega)

theorem schedule_retry_active (st : GState) : (schedule_retry st).active = st.active := by
  unfold schedule_retry
  split <;> rfl

/-- The `finally` block preserves the core invariant: the group's slot is
released, the counter drops by one, and the completed run is removed. -/
theorem run_epilogue_core {s0 : QueueState} {jid : String} {isTask : Bool}
    {pre post : List InFlight}
    (hc0 : InvCore s0) (hact : (getGroup s0 jid).active = true)
    (hbound : ∀ j, runsFor (pre ++ post) j ≤ 1)
    (hrel : ∀ j, j ≠ jid → runsFor (pre ++ post) j = runsFor s0.runs j)
    (hzero : runsFor (pre ++ post) jid = 0) :
    InvCore (run_epilogue s0 jid isTask pre post) := by
  have hst1a : (released (getGroup s0 jid) isTask).active = false := by
    unfold released
    cases isTask <;> rfl
  have hruns2 : (run_epilogue s0 jid isTask pre post).runs = pre ++ post := rfl
  have hget : ∀ j, getGroup (run_epilogue s0 jid isTask pre post) j
      = getGroupL (setGroupL s0.groups jid (released (getGroup s0 jid) isTask)) j :=
    fun _ => rfl
  refine ⟨?_, ?_, ?_, ?_, hc0.waitingNodup⟩
  · intro j
    rw [hruns2]
    exact hbound j
  · intro j
    rw [hruns2, hget j]
    by_cases hj : j = jid
    · subst hj
      rw [getGroupL_setGroupL_self, hst1a, hzero]
      simp
    · rw [getGroupL_setGroupL_ne s0.groups jid _ j hj, hrel j hj]
      exact hc0.activeIff j
  · show s0.active_count - 1
        = (countActive (setGroupL s0.groups jid (released (getGroup s0 jid) isTask)) : Int)
    have hform := countActive_setGroupL s0.groups jid (released (getGroup s0 jid) isTask)
    have hact' : (getGroupL s0.groups jid).active = true := hact
    rw [hact', hst1a] at hform
    simp only [if_true, Bool.false_eq_true, if_false] at hform
    have hceq := hc0.countEq
    omega
  · intro j hj
    rw [hget j]
    replace hj : j ∈ s0.waiting_groups := hj
    by_cases hjj : j = jid
    · subst hjj
      rw [getGroupL_setGroupL_self, hst1a]
    · rw [getGroupL_setGroupL_ne s0.groups jid _ j hjj]
      exact hc0.waitingInactive j hj

theorem complete_run_inv (MAX : Nat) (s : QueueState) (pre : List InFlight)
    (r : InFlight) (post : List InFlight) (ok : Bool)
    (hruns : s.runs = pre ++ r :: post) (h : Inv MAX s) :
    Inv MAX (complete_run MAX s pre r post ok) := by
  obtain ⟨jid, ph, kd⟩ := r
  have hone : runsFor s.runs jid = runsFor pre jid + 1 + runsFor post jid := by
    rw [hruns, runsFor_append, runsFor_cons,
      if_pos (show (InFlight.mk jid ph kd).jid = jid from rfl)]
    omega
  have hperG := h.core.perGroup jid
  have hpre0 : runsFor pre jid = 0 := by omega
  have hpost0 : runsFor post jid = 0 := by omega
  have h1 : runsFor s.runs jid = 1 := by omega
  have hact : (getGroup s jid).active = true := (h.core.activeIff jid).mpr h1
  have hnw : jid ∉ s.waiting_groups := by
    intro hmem
    rw [h.core.waitingInactive jid hmem] at hact
    cases hact
  have hself : runsFor (pre ++ post) jid = 0 := by
    rw [runsFor_append]
    omega
  have hother : ∀ j, j ≠ jid → runsFor (pre ++ post) j = runsFor s.runs j := by
    intro j hj
    rw [hruns, runsFor_append, runsFor_append, runsFor_cons,
      if_neg (fun hcon => hj hcon.symm)]
    omega
  have hbound : ∀ j, runsFor (pre ++ post) j ≤ 1 := by
    intro j
    by_cases hj : j = jid
    · subst hj
      omega
    · rw [hother j hj]
      exact h.core.perGroup j
  -- the epilogue hypotheses for each shape of `s0`
  have main : ∀ s0 : QueueState, InvCore s0 →
      (getGroup s0 jid).active = true → s0.runs = s.runs →
      s0.active_count = s.active_count → s0.waiting_groups = s.waiting_groups →
      s0.shutting_down = s.shutting_down →
      ∀ isTask, Inv MAX (drain_group MAX (run_epilogue s0 jid isTask pre post) jid) := by
    intro s0 hc0 hact0 hr0 hcnt0 hw0 hsd0 isTask
    have hcore2 : InvCore (run_epilogue s0 jid isTask pre post) :=
      run_epilogue_core hc0 hact0 hbound
        (by intro j hj; rw [hother j hj, hr0]) (by rw [hself]) -- hmm hrel needs runsFor s0.runs; rw hr0
    apply drain_group_inv
    · exact hcore2
    · show (getGroupL (setGroupL s0.groups jid
          (released (getGroup s0 jid) isTask)) jid).active = false
      rw [getGroupL_setGroupL_self]
      unfold released
      cases isTask <;> rfl
    · show s0.active_count - 1 < (MAX : Int)
      have := h.countLe
      omega
    · show jid ∉ s0.waiting_groups
      rw [hw0]
      exact hnw
    · show s0.shutting_down = false → s0.waiting_groups ≠ [] →
        (MAX : Int) ≤ s0.active_count - 1 + 1
      intro hf hne
      rw [hsd0] at hf
      rw [hw0] at hne
      have := h.waitingCap hf hne
      omega
  cases kd with
  | messages =>
    show Inv MAX (complete_run MAX s pre ⟨jid, ph, RunKind.messages⟩ post ok)
    unfold complete_run
    simp only []
    by_cases hok : ok = true
    · rw [hok]
      simp only [if_true]
      exact main (setGroup s jid { getGroup s jid with retry_count := 0 })
        (invCore_setGroup h.core rfl)
        (by rw [getGroup_setGroup_self]; exact hact) rfl rfl rfl rfl false
    · rw [Bool.not_eq_true] at hok
      rw [hok]
      simp only [Bool.false_eq_true, if_false]
      exact main (setGroup s jid (schedule_retry (getGroup s jid)))
        (invCore_setGroup h.core (schedule_retry_active _))
        (by rw [getGroup_setGroup_self, schedule_retry_active]; exact hact) rfl rfl rfl rfl false
  | task t =>
    show Inv MAX (complete_run MAX s pre ⟨jid, ph, RunKind.task t⟩ post ok)
    unfold complete_run
    simp only []
    exact main s h.core hact rfl rfl rfl rfl true

/-- Appending a fresh inactive prefix to the waiting list (the cap branch of
both enqueue methods) preserves the invariant; the branch condition gives the
cap fact the waiting list needs. -/
theorem inv_append_waiting {MAX : Nat} {s : QueueState} {jid : String}
    (h : Inv MAX s) (hia : (getGroup s jid).active = false)
    (hcap : (MAX : Int) ≤ s.active_count) (hmem : jid ∉ s.waiting_groups) :
    Inv MAX { s with waiting_groups := s.waiting_groups ++ [jid] } := by
  refine ⟨⟨h.core.perGroup, h.core.activeIff, h.core.countEq, ?_, ?_⟩, h.countLe, ?_⟩
  · intro j hj
    rcases List.mem_append.mp hj with hj' | hj'
    · exact h.core.waitingInactive j hj'
    · rw [List.mem_singleton.mp hj']
      exact hia
  · rw [List.nodup_append]
    exact ⟨h.core.waitingNodup, List.nodup_singleton jid,
      fun a ha hb => hmem ((List.mem_singleton.mp hb) ▸ ha)⟩
  · intro _ _
    exact hcap

/-- Under the cap with no shutdown, the waiting list is empty. -/
theorem waiting_empty_of_lt {MAX : Nat} {s : QueueState} (h : Inv MAX s)
    (hsd : s.shutting_down = false) (hcnt : s.active_count < (MAX : Int)) :
    s.waiting_groups = [] := by
  by_contra hne
  have := h.waitingCap hsd hne
  omega

theorem enqueue_message_check_inv (MAX : Nat) (s : QueueState) (jid : String)
    (h : Inv MAX s) : Inv MAX (enqueue_message_check MAX s jid).1 := by
  simp only [enqueue_message_check]
  by_cases hsd : s.shutting_down = true
  · rw [if_pos hsd]
    exact h
  · rw [if_neg hsd]
    have hsd' : s.shutting_down = false := by
      revert hsd
      cases s.shutting_down <;> simp
    by_cases hact : (getGroup s jid).active = true
    · rw [if_pos hact]
      exact inv_setGroup h rfl
    · rw [if_neg hact]
      rw [Bool.not_eq_true] at hact
      by_cases hcap : (MAX : Int) ≤ s.active_count
      · rw [if_pos hcap]
        by_cases hmem : jid ∈ (setGroup s jid
            { getGroup s jid with pending_messages := true }).waiting_groups
        · rw [if_pos hmem]
          exact inv_setGroup h rfl
        · rw [if_neg hmem]
          exact inv_append_waiting (inv_setGroup h rfl)
            (by rw [getGroup_setGroup_self]; exact hact) hcap hmem
      · rw [if_neg hcap]
        have hwempty : s.waiting_groups = [] := waiting_empty_of_lt h hsd' (by omega)
        refine ⟨invCore_activate_launch h.core hact rfl (by rw [hwempty]; simp), ?_, ?_⟩
        · show s.active_count + 1 ≤ (MAX : Int)
          omega
        · intro _ hne
          rw [show (activate_launch s jid { getGroup s jid with active := true }
            RunKind.messages).waiting_groups = s.waiting_groups from rfl, hwempty] at hne
          exact absurd rfl hne

theorem enqueue_task_inv (MAX : Nat) (s : QueueState) (jid task_id : String)
    (h : Inv MAX s) : Inv MAX (enqueue_task MAX s jid task_id).1 := by
  simp only [enqueue_task]
  by_cases hsd : s.shutting_down = true
  · rw [if_pos hsd]
    exact h
  · rw [if_neg hsd]
    have hsd' : s.shutting_down = false := by
      revert hsd
      cases s.shutting_down <;> simp
    by_cases hdup : (getGroup s jid).pending_tasks.any (fun t => t.id = task_id) = true
    · rw [if_pos hdup]
      exact inv_setGroup h rfl
    · rw [if_neg hdup]
      by_cases hact : (getGroup s jid).active = true
      · rw [if_pos hact]
        by_cases hiw : (getGroup s jid).idle_waiting = true
        · rw [if_pos hiw]
          simp only [close_stdin]
          split
          · exact inv_setGroup (inv_setGroup h rfl) rfl
          · exact inv_setGroup (inv_setGroup h rfl) rfl
        · rw [if_neg hiw]
          exact inv_setGroup h rfl
      · rw [if_neg hact]
        rw [Bool.not_eq_true] at hact
        by_cases hcap : (MAX : Int) ≤ s.active_count
        · rw [if_pos hcap]
          by_cases hmem : jid ∈ (setGroup s jid
              { getGroup s jid with
                pending_tasks := (getGroup s jid).pending_tasks ++ [⟨task_id⟩] }).waiting_groups
          · rw [if_pos hmem]
            exact inv_setGroup h rfl
          · rw [if_neg hmem]
            exact inv_append_waiting (inv_setGroup h rfl)
              (by rw [getGroup_setGroup_self]; exact hact) hcap hmem
        · rw [if_neg hcap]
          have hwempty : s.waiting_groups = [] := waiting_empty_of_lt h hsd' (by omega)
          refine ⟨invCore_activate_launch h.core hact rfl (by rw [hwempty]; simp), ?_, ?_⟩
          · show s.active_count + 1 ≤ (MAX : Int)
            omega
          · intro _ hne
            rw [show (activate_launch s jid { getGroup s jid with active := true }
              (RunKind.task ⟨task_id⟩)).waiting_groups = s.waiting_groups from rfl,
              hwempty] at hne
            exact absurd rfl hne

theorem close_stdin_inv (MAX : Nat) (s : QueueState) (jid : String)
    (h : Inv MAX s) : Inv MAX (close_stdin s jid).1 := by
  simp only [close_stdin]
  split
  · exact inv_setGroup h rfl
  · exact inv_setGroup h rfl

theorem notify_idle_inv (MAX : Nat) (s : QueueState) (jid : String)
    (h : Inv MAX s) : Inv MAX (notify_idle s jid).1 := by
  simp only [notify_idle]
  by_cases hpt : (getGroup s jid).pending_tasks.isEmpty = true
  · rw [hpt]
    simp only [Bool.not_true, Bool.false_eq_true, if_false]
    exact inv_setGroup h rfl
  · rw [Bool.not_eq_true] at hpt
    rw [hpt]
    simp only [Bool.not_false, if_true, close_stdin]
    split
    · exact inv_setGroup (inv_setGroup h rfl) rfl
    · exact inv_setGroup (inv_setGroup h rfl) rfl

theorem send_message_inv (MAX : Nat) (s : QueueState) (jid text : String)
    (h : Inv MAX s) : Inv MAX (send_message s jid text).1 := by
  simp only [send_message]
  split
  · exact inv_setGroup h rfl
  · exact inv_setGroup h rfl

theorem register_process_inv (MAX : Nat) (s : QueueState) (jid : String)
    (folder : Option String) (h : Inv MAX s) :
    Inv MAX (register_process s jid folder) := by
  simp only [register_process]
  split
  · exact inv_setGroup h rfl
  · exact inv_setGroup h rfl

theorem runsFor_phase_change (pre post : List InFlight) (r : InFlight)
    (ph : RunPhase) (j : String) :
    runsFor (pre ++ { r with phase := ph } :: post) j = runsFor (pre ++ r :: post) j := by
  rw [runsFor_append, runsFor_append, runsFor_cons, runsFor_cons]

theorem start_run_inv (MAX : Nat) (s : QueueState) (pre : List InFlight)
    (r : InFlight) (post : List InFlight) (hruns : s.runs = pre ++ r :: post)
    (h : Inv MAX s) : Inv MAX (start_run s pre r post) := by
  have hc1 : InvCore (run_prologue s r) := by
    simp only [run_prologue]
    split
    · exact invCore_setGroup h.core rfl
    · exact invCore_setGroup h.core rfl
  have hproj : (run_prologue s r).runs = s.runs ∧
      (run_prologue s r).active_count = s.active_count ∧
      (run_prologue s r).waiting_groups = s.waiting_groups ∧
      (run_prologue s r).shutting_down = s.shutting_down := by
    simp only [run_prologue]
    split <;> exact ⟨rfl, rfl, rfl, rfl⟩
  have hget : ∀ j, getGroup (start_run s pre r post) j = getGroup (run_prologue s r) j :=
    fun _ => rfl
  have hrr : (start_run s pre r post).runs = pre ++ { r with phase := RunPhase.started } :: post :=
    rfl
  have hrfor : ∀ j, runsFor (start_run s pre r post).runs j = runsFor s.runs j := by
    intro j
    rw [hrr, runsFor_phase_change, hruns]
  refine ⟨⟨?_, ?_, ?_, ?_, ?_⟩, ?_, ?_⟩
  · intro j
    rw [hrfor j]
    exact h.core.perGroup j
  · intro j
    rw [hrfor j, hget j]
    have := hc1.activeIff j
    rw [hproj.1] at this
    exact this
  · show (run_prologue s r).active_count = _
    exact hc1.countEq
  · intro j hj
    rw [hget j]
    apply hc1.waitingInactive j
    show j ∈ (run_prologue s r).waiting_groups
    rw [show (start_run s pre r post).waiting_groups
        = (run_prologue s r).waiting_groups from rfl] at hj
    exact hj
  · exact hc1.waitingNodup
  · show (run_prologue s r).active_count ≤ _
    rw [hproj.2.1]
    exact h.countLe
  · intro h1 h2
    show (MAX : Int) ≤ (run_prologue s r).active_count
    rw [hproj.2.1]
    apply h.waitingCap
    · rw [show (start_run s pre r post).shutting_down
          = (run_prologue s r).shutting_down from rfl, hproj.2.2.2] at h1
      exact h1
    · rw [show (start_run s pre r post).waiting_groups
          = (run_prologue s r).waiting_groups from rfl, hproj.2.2.1] at h2
      exact h2

theorem queue_shutdown_inv (MAX : Nat) (s : QueueState) (h : Inv MAX s) :
    Inv MAX (queue_shutdown s) := by
  refine ⟨⟨h.core.perGroup, h.core.activeIff, h.core.countEq,
    h.core.waitingInactive, h.core.waitingNodup⟩, h.countLe, ?_⟩
  intro hf
  cases hf

theorem step_inv {MAX : Nat} {s s' : QueueState} (hstep : Step MAX s s')
    (h : Inv MAX s) : Inv MAX s' := by
  cases hstep with
  | enqueueMsg jid => exact enqueue_message_check_inv MAX s jid h
  | enqueueTask jid task_id => exact enqueue_task_inv MAX s jid task_id h
  | notifyIdle jid => exact notify_idle_inv MAX s jid h
  | sendMsg jid text => exact send_message_inv MAX s jid text h
  | closeStdin jid => exact close_stdin_inv MAX s jid h
  | registerProcess jid folder => exact register_process_inv MAX s jid folder h
  | startRun pre r post hruns hph => exact start_run_inv MAX s pre r post hruns h
  | completeRun pre r post ok hruns hph => exact complete_run_inv MAX s pre r post ok hruns h
  | shutdown => exact queue_shutdown_inv MAX s h

theorem inv_init (MAX : Nat) : Inv MAX ({} : QueueState) := by
  refine ⟨⟨?_, ?_, ?_, ?_, ?_⟩, ?_, ?_⟩
  · intro j
    show runsFor [] j ≤ 1
    simp [runsFor]
  · intro j
    show (getGroupL [] j).active = true ↔ runsFor [] j = 1
    simp [getGroupL, runsFor]
  · show (0 : Int) = (countActive [] : Int)
    simp [countActive]
  · intro j hj
    cases hj
  · exact List.nodup_nil
  · show (0 : Int) ≤ (MAX : Int)
    omega
  · intro _ hne
    exact absurd rfl hne

theorem reachable_inv {MAX : Nat} {s : QueueState} (h : Reachable MAX s) : Inv MAX s := by
  induction h with
  | init => exact inv_init MAX
  | step _ hstep ih => exact step_inv hstep ih

/-- C1: in every reachable queue state, each repo-prefix has at most one
in-flight run (at most one active slot), `_active_count` equals the number of
groups whose slot is active, and it never exceeds `MAX_CONCURRENT_CONTAINERS`. -/
theorem c1_queue_concurrency (MAX : Nat) (s : QueueState) (h : Reachable MAX s) :
    (∀ jid, runsFor s.runs jid ≤ 1) ∧
    s.active_count = (countActive s.groups : Int) ∧
    s.active_count ≤ (MAX : Int) := by
  have hi := reachable_inv h
  exact ⟨hi.core.perGroup, hi.core.countEq, hi.countLe⟩

theorem c1_queue_concurrency_witness :
    (∀ jid, runsFor (enqueue_message_check 2
        (enqueue_message_check 2 {} "gh:o/a").1 "gh:o/b").1.runs jid ≤ 1) ∧
    (enqueue_message_check 2 (enqueue_message_check 2 {} "gh:o/a").1 "gh:o/b").1.active_count
      = (countActive (enqueue_message_check 2
          (enqueue_message_check 2 {} "gh:o/a").1 "gh:o/b").1.groups : Int) ∧
    (enqueue_message_check 2 (enqueue_message_check 2 {} "gh:o/a").1 "gh:o/b").1.active_count
      ≤ (2 : Int) :=
  c1_queue_concurrency 2 _
    (Reachable.step (Reachable.step Reachable.init (Step.enqueueMsg {} "gh:o/a"))
      (Step.enqueueMsg _ "gh:o/b"))

/-- A queue state built by the operations themselves: one container started for
`"g"`, its process registered with folder `"f"`, now idle-waiting. -/
def c2State : QueueState :=
  (notify_idle
    (register_process
      (start_run (enqueue_message_check 5 {} "g").1 []
        ⟨"g", RunPhase.launched, RunKind.messages⟩ [])
      "g" (some "f"))
    "g").1

/-- C2 counterexample: with the `"g"` container active AND idle-waiting,
`enqueue_message_check` performs no filesystem write at all — in particular it
does not write the stdin-close sentinel the claim asserts — it only sets
`pending_messages` (and starts nothing). -/
theorem c2_enqueue_idle_counterexample :
    (getGroup c2State "g").active = true ∧
    (getGroup c2State "g").idle_waiting = true ∧
    (enqueue_message_check 5 c2State "g").2 = [] ∧
    (getGroup (enqueue_message_check 5 c2State "g").1 "g").pending_messages = true ∧
    (enqueue_message_check 5 c2State "g").1.runs = c2State.runs := by
  refine ⟨rfl, rfl, rfl, rfl, rfl⟩

/-- C2 (amended): when the prefix's state has `active = true`,
`enqueue_message_check` sets `pending_messages`, starts no new container and
writes nothing — the stdin-close sentinel is NOT written here even when
`idle_waiting` is true (it is written only by `enqueue_task`, `notify_idle`
and `close_stdin`). -/
theorem c2_enqueue_active_amended (MAX : Nat) (s : QueueState) (jid : String)
    (hsd : s.shutting_down = false) (hact : (getGroup s jid).active = true) :
    (getGroup (enqueue_message_check MAX s jid).1 jid).pending_messages = true ∧
    (enqueue_message_check MAX s jid).1.runs = s.runs ∧
    (enqueue_message_check MAX s jid).2 = [] := by
  simp only [enqueue_message_check, hsd, Bool.false_eq_true, if_false, hact, if_true]
  exact ⟨by rw [getGroup_setGroup_self], by trivial, by trivial⟩

theorem c2_enqueue_active_amended_witness :
    (getGroup (enqueue_message_check 5 c2State "g").1 "g").pending_messages = true ∧
    (enqueue_message_check 5 c2State "g").1.runs = c2State.runs ∧
    (enqueue_message_check 5 c2State "g").2 = [] :=
  c2_enqueue_active_amended 5 c2State "g" (by decide) (by decide)

/-- One-step unfolding of `_drain_waiting`: empty waiting list. -/
theorem drain_waiting_nil (MAX : Nat) (s : QueueState)
    (hw : s.waiting_groups = []) : drain_waiting MAX s = s := by
  rw [drain_waiting]
  split
  · rfl
  · rename_i next rest heq
    rw [hw] at heq
    cases heq

/-- One-step unfolding of `_drain_waiting`: the cap is exhausted. -/
theorem drain_waiting_full (MAX : Nat) (s : QueueState) (jid : String)
    (rest : List String) (hw : s.waiting_groups = jid :: rest)
    (hcnt : ¬ s.active_count < (MAX : Int)) : drain_waiting MAX s = s := by
  rw [drain_waiting]
  split
  · rfl
  · rename_i next rest2 heq
    rw [if_neg hcnt]

/-- One-step unfolding of `_drain_waiting`: pop the head under the cap. -/
theorem drain_waiting_cons (MAX : Nat) (s : QueueState) (jid : String)
    (rest : List String) (hw : s.waiting_groups = jid :: rest)
    (hcnt : s.active_count < (MAX : Int)) :
    drain_waiting MAX s =
      (match (getGroup s jid).pending_tasks with
       | t :: ts =>
         drain_waiting MAX (activate_launch { s with waiting_groups := rest } jid
           { getGroup s jid with pending_tasks := ts, active := true } (RunKind.task t))
       | [] =>
         if (getGroup s jid).pending_messages = true then
           drain_waiting MAX (activate_launch { s with waiting_groups := rest } jid
             { getGroup s jid with active := true } RunKind.messages)
         else
           drain_waiting MAX (setGroup { s with waiting_groups := rest } jid
             (getGroup s jid))) := by
  conv_lhs => rw [drain_waiting]
  split
  · rename_i heq
    rw [hw] at heq
    cases heq
  · rename_i next rest2 heq
    rw [hw] at heq
    injection heq with h1 h2
    subst h1
    subst h2
    rw [if_pos hcnt]
    rfl

theorem drain_waiting_cons_task (MAX : Nat) (s : QueueState) (jid : String)
    (rest : List String) (t : QueuedTask) (ts : List QueuedTask)
    (hw : s.waiting_groups = jid :: rest) (hcnt : s.active_count < (MAX : Int))
    (hpt : (getGroup s jid).pending_tasks = t :: ts) :
    drain_waiting MAX s =
      drain_waiting MAX (activate_launch { s with waiting_groups := rest } jid
        { getGroup s jid with pending_tasks := ts, active := true } (RunKind.task t)) := by
  rw [drain_waiting_cons MAX s jid rest hw hcnt]
  simp only [hpt]

theorem drain_waiting_cons_msg (MAX : Nat) (s : QueueState) (jid : String)
    (rest : List String)
    (hw : s.waiting_groups = jid :: rest) (hcnt : s.active_count < (MAX : Int))
    (hpt : (getGroup s jid).pending_tasks = [])
    (hpm : (getGroup s jid).pending_messages = true) :
    drain_waiting MAX s =
      drain_waiting MAX (activate_launch { s with waiting_groups := rest } jid
        { getGroup s jid with pending_tasks := [], active := true } RunKind.messages) := by
  rw [drain_waiting_cons MAX s jid rest hw hcnt]
  simp only [hpt]
  rw [if_pos hpm]

theorem drain_waiting_cons_skip (MAX : Nat) (s : QueueState) (jid : String)
    (rest : List String)
    (hw : s.waiting_groups = jid :: rest) (hcnt : s.active_count < (MAX : Int))
    (hpt : (getGroup s jid).pending_tasks = [])
    (hpm : (getGroup s jid).pending_messages = false) :
    drain_waiting MAX s =
      drain_waiting MAX (setGroup { s with waiting_groups := rest } jid (getGroup s jid)) := by
  rw [drain_waiting_cons MAX s jid rest hw hcnt]
  simp only [hpt]
  rw [if_neg (by rw [hpm]; exact Bool.false_ne_true)]

/-- `_drain_waiting` only ever appends newly launched runs. -/
theorem drain_waiting_runs_mono (MAX : Nat) :
    ∀ n s, s.waiting_groups.length ≤ n →
    ∃ new, (drain_waiting MAX s).runs = s.runs ++ new := by
  intro n
  induction n with
  | zero =>
    intro s hlen
    rw [drain_waiting_nil MAX s (List.eq_nil_of_length_eq_zero (by omega))]
    exact ⟨[], by simp⟩
  | succ n ih =>
    intro s hlen
    cases hw : s.waiting_groups with
    | nil =>
      rw [drain_waiting_nil MAX s hw]
      exact ⟨[], by simp⟩
    | cons next rest =>
      have hlen1 : rest.length ≤ n := by
        rw [hw] at hlen
        simp only [List.length_cons] at hlen
        omega
      by_cases hcnt : s.active_count < (MAX : Int)
      · cases hpt : (getGroup s next).pending_tasks with
        | cons t ts =>
          rw [drain_waiting_cons_task MAX s next rest t ts hw hcnt hpt]
          obtain ⟨new2, hnew2⟩ := ih
            (activate_launch { s with waiting_groups := rest } next
              { getGroup s next with pending_tasks := ts, active := true }
              (RunKind.task t)) hlen1
          refine ⟨⟨next, RunPhase.launched, RunKind.task t⟩ :: new2, ?_⟩
          rw [hnew2]
          show (s.runs ++ [⟨next, RunPhase.launched, RunKind.task t⟩]) ++ new2 = _
          rw [List.append_assoc]
          rfl
        | nil =>
          by_cases hpm : (getGroup s next).pending_messages = true
          · rw [drain_waiting_cons_msg MAX s next rest hw hcnt hpt hpm]
            obtain ⟨new2, hnew2⟩ := ih
              (activate_launch { s with waiting_groups := rest } next
                { getGroup s next with pending_tasks := [], active := true }
                RunKind.messages) hlen1
            refine ⟨⟨next, RunPhase.launched, RunKind.messages⟩ :: new2, ?_⟩
            rw [hnew2]
            show (s.runs ++ [⟨next, RunPhase.launched, RunKind.messages⟩]) ++ new2 = _
            rw [List.append_assoc]
            rfl
          · rw [Bool.not_eq_true] at hpm
            rw [drain_waiting_cons_skip MAX s next rest hw hcnt hpt hpm]
            obtain ⟨new2, hnew2⟩ := ih
              (setGroup { s with waiting_groups := rest } next (getGroup s next)) hlen1
            exact ⟨new2, hnew2⟩
      · rw [drain_waiting_full MAX s next rest hw hcnt]
        exact ⟨[], by simp⟩

/-- Popping the head of the waiting list launches its first pending task when
one exists, and a message run only otherwise. -/
theorem drain_waiting_head (MAX : Nat) (s : QueueState) (jid : String)
    (rest : List String) (hw : s.waiting_groups = jid :: rest)
    (hcnt : s.active_count < (MAX : Int)) :
    (∀ t ts, (getGroup s jid).pending_tasks = t :: ts →
      ∃ new, (drain_waiting MAX s).runs
        = s.runs ++ ⟨jid, RunPhase.launched, RunKind.task t⟩ :: new) ∧
    ((getGroup s jid).pending_tasks = [] → (getGroup s jid).pending_messages = true →
      ∃ new, (drain_waiting MAX s).runs
        = s.runs ++ ⟨jid, RunPhase.launched, RunKind.messages⟩ :: new) := by
  constructor
  · intro t ts hpt
    rw [drain_waiting_cons_task MAX s jid rest t ts hw hcnt hpt]
    obtain ⟨new2, hnew2⟩ := drain_waiting_runs_mono MAX rest.length
      (activate_launch { s with waiting_groups := rest } jid
        { getGroup s jid with pending_tasks := ts, active := true } (RunKind.task t))
      (le_refl _)
    refine ⟨new2, ?_⟩
    rw [hnew2]
    show (s.runs ++ [⟨jid, RunPhase.launched, RunKind.task t⟩]) ++ new2 = _
    rw [List.append_assoc]
    rfl
  · intro hpt hpm
    rw [drain_waiting_cons_msg MAX s jid rest hw hcnt hpt hpm]
    obtain ⟨new2, hnew2⟩ := drain_waiting_runs_mono MAX rest.length
      (activate_launch { s with waiting_groups := rest } jid
        { getGroup s jid with pending_tasks := [], active := true } RunKind.messages)
      (le_refl _)
    refine ⟨new2, ?_⟩
    rw [hnew2]
    show (s.runs ++ [⟨jid, RunPhase.launched, RunKind.messages⟩]) ++ new2 = _
    rw [List.append_assoc]
    rfl

/-- C3: on slot release (`_drain_group`) the next run launched for a prefix is
always its first pending task, popped FIFO; a message-processing run is
launched only when the pending-task queue is empty; and the same preference
holds when a prefix is popped from the global waiting queue
(`_drain_waiting`). -/
theorem c3_task_priority (MAX : Nat) (s : QueueState) (jid : String) :
    (∀ t ts, s.shutting_down = false → (getGroup s jid).pending_tasks = t :: ts →
      (drain_group MAX s jid).runs
        = s.runs ++ [⟨jid, RunPhase.launched, RunKind.task t⟩] ∧
      (getGroup (drain_group MAX s jid) jid).pending_tasks = ts) ∧
    (s.shutting_down = false → (getGroup s jid).pending_tasks = [] →
      (getGroup s jid).pending_messages = true →
      (drain_group MAX s jid).runs
        = s.runs ++ [⟨jid, RunPhase.launched, RunKind.messages⟩]) ∧
    (∀ rest, s.waiting_groups = jid :: rest → s.active_count < (MAX : Int) →
      (∀ t ts, (getGroup s jid).pending_tasks = t :: ts →
        ∃ new, (drain_waiting MAX s).runs
          = s.runs ++ ⟨jid, RunPhase.launched, RunKind.task t⟩ :: new) ∧
      ((getGroup s jid).pending_tasks = [] → (getGroup s jid).pending_messages = true →
        ∃ new, (drain_waiting MAX s).runs
          = s.runs ++ ⟨jid, RunPhase.launched, RunKind.messages⟩ :: new)) := by
  refine ⟨?_, ?_, ?_⟩
  · intro t ts hsd hpt
    rw [drain_group, hsd]
    simp only [Bool.false_eq_true, if_false, hpt]
    constructor
    · rfl
    · show (getGroupL (setGroupL s.groups jid _) jid).pending_tasks = ts
      rw [getGroupL_setGroupL_self]
  · intro hsd hpt hpm
    rw [drain_group, hsd]
    simp only [Bool.false_eq_true, if_false, hpt, hpm, if_true]
    rfl
  · intro rest hw hcnt
    exact drain_waiting_head MAX s jid rest hw hcnt

/-- A state with one idle slot free, prefix `"g"` holding one pending task and
a pending-messages flag, and sitting at the head of the waiting list. -/
def c3State : QueueState :=
  { groups := [("g", { pending_tasks := [⟨"t1"⟩, ⟨"t2"⟩], pending_messages := true })],
    active_count := 0, waiting_groups := ["g"], shutting_down := false, runs := [] }

/-- A state like `c3State` but with no pending tasks for `"g"`. -/
def c3StateM : QueueState :=
  { groups := [("g", { pending_messages := true })],
    active_count := 0, waiting_groups := ["g"], shutting_down := false, runs := [] }

theorem c3_task_priority_witness :
    ((drain_group 5 c3State "g").runs
        = c3State.runs ++ [⟨"g", RunPhase.launched, RunKind.task ⟨"t1"⟩⟩] ∧
      (getGroup (drain_group 5 c3State "g") "g").pending_tasks = [⟨"t2"⟩]) ∧
    ((drain_group 5 c3StateM "g").runs
        = c3StateM.runs ++ [⟨"g", RunPhase.launched, RunKind.messages⟩]) ∧
    (∃ new, (drain_waiting 5 c3State).runs
        = c3State.runs ++ ⟨"g", RunPhase.launched, RunKind.task ⟨"t1"⟩⟩ :: new) ∧
    (∃ new, (drain_waiting 5 c3StateM).runs
        = c3StateM.runs ++ ⟨"g", RunPhase.launched, RunKind.messages⟩ :: new) :=
  ⟨(c3_task_priority 5 c3State "g").1 ⟨"t1"⟩ [⟨"t2"⟩] (by decide) (by decide),
    (c3_task_priority 5 c3StateM "g").2.1 (by decide) (by decide) (by decide),
    ((c3_task_priority 5 c3State "g").2.2 [] (by decide) (by decide)).1 ⟨"t1"⟩ [⟨"t2"⟩]
      (by decide),
    ((c3_task_priority 5 c3StateM "g").2.2 [] (by decide) (by decide)).2 (by decide)
      (by decide)⟩

end Codeclaw
